import Mathlib

/-!
# File synchronisation service: embedding and verified properties

A shallow embedding of the Go services of the repository
(`internal/gateway`, `internal/sync`, `internal/utils`, `internal/models`)
together with theorems about them.

Conventions of the embedding

* A Go `string` is a byte sequence (`GoString`); identifiers, hashes and keys
  are only ever compared for equality, paths are inspected byte by byte.
* The metadata store is a pair of tables kept in store order.  gorm's
  `Preload("Versions")` yields the version rows of a file in that order.
* Everything the code obtains from outside (a fresh UUID, a failing database
  statement, a read of the blob reader, a message of the change bus) is an
  explicit argument of the function that consumes it.
* Store-assigned time stamps (`CreatedAt`, `UpdatedAt`) and the `Owner`
  association of a file are never read by the properties below and are left
  out of the rows.
-/

namespace FileSync

/-! ## Go values -/

abbrev Byte := Fin 256

abbrev GoString := List Byte

/-- The bytes of an ASCII literal of the source. -/
def str (s : String) : GoString :=
  s.toList.map (fun c => Fin.ofNat c.toNat)

/-- The errors a gorm statement reports: `gorm.ErrRecordNotFound`,
a duplicate primary key, a violated foreign key, a column that the table does
not have, or any other failure of the database, identified by a number. -/
inductive DbError where
  | ErrRecordNotFound
  | ErrDuplicatedKey
  | ErrForeignKeyViolated
  | ErrUndefinedColumn
  | other (cause : Nat)
deriving DecidableEq, Repr

/-- The gRPC status codes the services use. -/
inductive Code where
  | NotFound
  | Internal
deriving DecidableEq, Repr

/-- A non-nil Go `error` returned by a service method: a gRPC status
(`status.Errorf(code, ...)`), a database error handed back unchanged, or an
error of the stream handed back unchanged. -/
inductive RpcError where
  | status (code : Code)
  | db (e : DbError)
  | stream (cause : Nat)
deriving DecidableEq, Repr

deriving instance DecidableEq for Except

/-- How a call of a service method ends: it returns a value with a nil error,
it returns a non-nil error, or it stops with a run-time fault (an index out
of range). -/
inductive Outcome (α : Type) where
  | ok (a : α)
  | error (e : RpcError)
  | fault
deriving DecidableEq, Repr

/-! ## Data model (`internal/models/file.model.go`) -/

/-- A row of `file_versions` (`models.FileVersion`), with the columns that the
struct declares and `AutoMigrate` creates. -/
structure FileVersion where
  ID : GoString
  FileID : GoString
  VersionNum : Int
  Hash : GoString
  Size : Int
  S3Key : GoString
  DeviceID : GoString
deriving DecidableEq, Repr

/-- A row of `files` (`models.File`); `Versions` is the association that
`Preload("Versions")` fills in. -/
structure File where
  ID : GoString
  Name : GoString
  Path : GoString
  Size : Int
  ContentType : GoString
  OwnerID : GoString
  Versions : List FileVersion
deriving DecidableEq, Repr

/-- The metadata store: both tables in store order. -/
structure Store where
  files : List File
  versions : List FileVersion
deriving DecidableEq, Repr

/-- The query `db.Preload("Versions").First(&file, "id = ?", id)`.
`qfault` is a failure of the database other than "record not found". -/
def preloadFirst (db : Store) (qfault : Option Nat) (id : GoString) : Except DbError File :=
  match qfault with
  | some n => .error (.other n)
  | none =>
    match db.files.find? (fun f => f.ID = id) with
    | none => .error .ErrRecordNotFound
    | some f => .ok { f with Versions := db.versions.filter (fun v => v.FileID = f.ID) }

/-! ## Store statements used inside transactions -/

/-- The hook `(*FileVersion).BeforeCreate`; `fresh` is what `uuid.New().String()`
returns if the hook calls it. -/
def FileVersion.BeforeCreate (fresh : GoString) (fv : FileVersion) : FileVersion :=
  if fv.ID = [] then { fv with ID := fresh } else fv

/-- The hook `(*File).BeforeCreate`. -/
def File.BeforeCreate (fresh : GoString) (f : File) : File :=
  if f.ID = [] then { f with ID := fresh } else f

/-- The statement `tx.Create(version)`: the hook runs, then the row is inserted
after the existing rows.  The insert is refused when the primary key is taken,
and when no file row has the id `FileID`: the column `file_versions.file_id`
is a foreign key into `files`, which `AutoMigrate` (`utils/database.go`)
creates for the association `gorm:"foreignKey:FileID"` of the two models.
`fault` is any other failure of the statement. -/
def txCreateVersion (db : Store) (fault : Option Nat) (fresh : GoString) (version : FileVersion) :
    Except DbError Store :=
  let v := version.BeforeCreate fresh
  match fault with
  | some n => .error (.other n)
  | none =>
    if db.versions.any (fun r => r.ID = v.ID) then .error .ErrDuplicatedKey
    else if db.files.any (fun f => f.ID = v.FileID) then
      .ok { db with versions := db.versions ++ [v] }
    else .error .ErrForeignKeyViolated

/-- The statement `tx.Save(file)` of gorm: with an empty primary key it is a
`Create` (the hook assigns the id); otherwise it writes all fields of the row
with that id, and inserts the row when there is none. -/
def txSaveFile (db : Store) (fault : Option Nat) (fresh : GoString) (file : File) :
    Except DbError Store :=
  match fault with
  | some n => .error (.other n)
  | none =>
    if file.ID = [] then
      let f := file.BeforeCreate fresh
      if db.files.any (fun r => r.ID = f.ID) then .error .ErrDuplicatedKey
      else .ok { db with files := db.files ++ [f] }
    else if db.files.any (fun r => r.ID = file.ID) then
      .ok { db with files := db.files.map (fun r => if r.ID = file.ID then file else r) }
    else .ok { db with files := db.files ++ [file] }

/-- The statement
`tx.Model(&models.FileVersion{}).Where("id IN ?", ids).Update("resolved_by", newID)`.
The struct `models.FileVersion` declares no field for `resolved_by`, so the
table `file_versions` that `AutoMigrate` (`utils/database.go`) creates has no
such column, and the database refuses the statement whatever rows the
condition selects.  `fault` is any other failure of the statement. -/
def txUpdateResolvedBy (_db : Store) (fault : Option Nat) (_ids : List GoString)
    (_newID : GoString) : Except DbError Store :=
  match fault with
  | some n => .error (.other n)
  | none => .error .ErrUndefinedColumn

/-- The call `db.Transaction(body)`: the writes of `body` become visible only
when `body` returns nil and the commit succeeds. -/
def Transaction (db : Store) (commitFault : Option Nat) (body : Store → Except DbError Store) :
    Except DbError Store :=
  match body db with
  | .error e => .error e
  | .ok db' =>
    match commitFault with
    | some n => .error (.other n)
    | none => .ok db'

/-! ## Sync coordinator: `ResolveConflict` -/

structure ConflictResolutionRequest where
  FileId : GoString
  LosingVersionIds : List GoString
deriving DecidableEq, Repr

structure ConflictResolutionResponse where
  Success : Bool
  Message : GoString
  NewVersionId : GoString
deriving DecidableEq, Repr

/-- What one call of `ResolveConflict` takes from outside: the results of its
calls of `uuid.New().String()` in source order (for `newVersion.ID`, in the
`BeforeCreate` hook, for the response), and the failures of its statements. -/
structure ResolveEnv where
  newVersionUuid : GoString
  hookUuid : GoString
  responseUuid : GoString
  createFault : Option Nat
  updateFault : Option Nat
  commitFault : Option Nat

/-- The version `ResolveConflict` builds; fields it does not set have Go's
zero value. -/
def resolvingVersion (env : ResolveEnv) (req : ConflictResolutionRequest) : FileVersion :=
  { ID := env.newVersionUuid, FileID := req.FileId, VersionNum := 0, Hash := [], Size := 0,
    S3Key := [], DeviceID := str "system" }

/-- The method `SyncService.ResolveConflict`: the outcome and the store
afterwards. -/
def ResolveConflict (db : Store) (env : ResolveEnv) (req : ConflictResolutionRequest) :
    Outcome ConflictResolutionResponse × Store :=
  let newVersion := resolvingVersion env req
  let err := Transaction db env.commitFault (fun tx =>
    match txCreateVersion tx env.createFault env.hookUuid newVersion with
    | .error e => .error e
    | .ok tx1 =>
      match txUpdateResolvedBy tx1 env.updateFault req.LosingVersionIds
          (newVersion.BeforeCreate env.hookUuid).ID with
      | .error e => .error e
      | .ok tx2 => .ok tx2)
  match err with
  | .error _ => (.error (.status .Internal), db)
  | .ok db' =>
    (.ok { Success := true, Message := str "Conflict resolved successfully",
           NewVersionId := env.responseUuid }, db')

/-! ## Upload and download pipeline (`internal/gateway/gateway.service.go`) -/

def chunkSize : Nat := 1024 * 1024

/-- The Go conversion to `int64`: two's complement wrap-around. -/
def int64 (n : Int) : Int := (n + 2 ^ 63) % 2 ^ 64 - 2 ^ 63

def hexDigit (n : Nat) : Byte :=
  if n < 10 then Fin.ofNat (48 + n) else Fin.ofNat (87 + n)

/-- The function `hex.EncodeToString`: two lower-case digits per byte. -/
def hexEncode (bs : List Byte) : GoString :=
  bs.flatMap (fun b => [hexDigit (b.val / 16), hexDigit (b.val % 16)])

/-- The blob store: stored objects by key, the most recent write first. -/
abbrev BlobStore := List (GoString × List Byte)

/-- Modelled from the spec: `S3Client.UploadFile` (the file `utils/s3.go` is
not part of the sources), "writes the full buffer to the Blob Store under that
key"; `fault` is a failure of the write. -/
def S3Client.UploadFile (blobs : BlobStore) (fault : Option Nat) (key : GoString)
    (body : List Byte) : Except Nat BlobStore :=
  match fault with
  | some n => .error n
  | none => .ok ((key, body) :: blobs)

/-- The error of a `Read` or `Recv`: `io.EOF` or another failure. -/
inductive IoError where
  | EOF
  | other (cause : Nat)
deriving DecidableEq, Repr

/-- The result `(n, err)` of one call `reader.Read(buffer)`: `data` are the
`n` bytes the call placed at the start of the buffer. -/
structure ReadResult where
  data : List Byte
  err : Option IoError
deriving DecidableEq, Repr

/-- A reader, given by the results of its successive `Read` calls; once these
are used up every further `Read` returns `(0, io.EOF)`. -/
abbrev Reader := List ReadResult

/-- Modelled from the spec: `S3Client.DownloadFile` (same missing file),
"get by key": it fails when the request fails or no object is stored under
the key, and otherwise hands out a reader over the stored object; `reads`
says how that reader answers its `Read` calls. -/
def S3Client.DownloadFile (blobs : BlobStore) (fault : Option Nat)
    (reads : List Byte → Reader) (key : GoString) : Except Nat Reader :=
  match fault with
  | some n => .error n
  | none =>
    match blobs.lookup key with
    | none => .error 0
    | some object => .ok (reads object)

/-- The fields of `proto.FileChunk` that `UploadFile` reads. -/
structure FileChunk where
  FileId : GoString
  FileName : GoString
  UserId : GoString
  DeviceId : GoString
  Content : List Byte
deriving DecidableEq, Repr

/-- One call `stream.Recv()` that does not return `io.EOF`: a chunk, or a
failure of the transport.  An upload stream is the list of these; after
them `Recv` returns `io.EOF`. -/
inductive Recv where
  | chunk (c : FileChunk)
  | failure (cause : Nat)
deriving DecidableEq, Repr

/-- The running state of the receive loop: `bytes.Buffer`, the bytes written
to the `sha256` hasher so far, and `totalSize`. -/
structure Staging where
  buffer : List Byte
  hashed : List Byte
  totalSize : Int
deriving DecidableEq, Repr

/-- The statements `buffer.Write(c); hasher.Write(c); totalSize += int64(len(c))`. -/
def Staging.write (st : Staging) (content : List Byte) : Staging :=
  { buffer := st.buffer ++ content,
    hashed := st.hashed ++ content,
    totalSize := int64 (st.totalSize + int64 content.length) }

/-- The receive loop of `UploadFile`: `none` when a `Recv` fails. -/
def recvLoop : List Recv → Staging → Option Staging
  | [], st => some st
  | .failure _ :: _, _ => none
  | .chunk c :: rest, st => recvLoop rest (st.write c.Content)

/-- What one call of `UploadFile` takes from outside: the results of
`uuid.New().String()` (for `fileID`, in the two `BeforeCreate` hooks), the
library functions `sha256` (the digest of all bytes written to the hasher),
`http.DetectContentType` and `utils.GenerateS3Key` (not part of the sources),
and the failures of the blob write, of the statements and of `SendAndClose`. -/
structure UploadEnv where
  fileUuid : GoString
  fileHookUuid : GoString
  versionHookUuid : GoString
  sha256 : List Byte → List Byte
  DetectContentType : List Byte → GoString
  GenerateS3Key : GoString → GoString → GoString → GoString
  s3Fault : Option Nat
  saveFault : Option Nat
  createFault : Option Nat
  commitFault : Option Nat
  sendFault : Option Nat

structure FileUploadResponse where
  FileId : GoString
  Message : GoString
deriving DecidableEq, Repr

/-- The state after a call of `UploadFile`. -/
structure UploadResult where
  outcome : Outcome FileUploadResponse
  db : Store
  blobs : BlobStore
  committed : Bool

/-- The first `Recv` of `UploadFile` and its receive loop: the first chunk and
the staged bytes, or `none` when a `Recv` fails or the stream has no chunk
(the first `Recv` then returns `io.EOF`, which is an error there). -/
def receive : List Recv → Option (FileChunk × Staging)
  | [] => none
  | .failure _ :: _ => none
  | .chunk firstChunk :: rest =>
    match recvLoop rest (Staging.write ⟨[], [], 0⟩ firstChunk.Content) with
    | none => none
    | some st => some (firstChunk, st)

/-- The value of `fileID` in `UploadFile`. -/
def uploadFileID (env : UploadEnv) (firstChunk : FileChunk) : GoString :=
  if firstChunk.FileId = [] then env.fileUuid else firstChunk.FileId

/-- The value of `s3Key` in `UploadFile`. -/
def uploadS3Key (env : UploadEnv) (firstChunk : FileChunk) : GoString :=
  env.GenerateS3Key firstChunk.UserId firstChunk.DeviceId firstChunk.FileName

/-- The `models.File` that `UploadFile` builds. -/
def uploadFile (env : UploadEnv) (firstChunk : FileChunk) (st : Staging) : File :=
  { ID := uploadFileID env firstChunk, Name := firstChunk.FileName,
    Path := uploadS3Key env firstChunk, Size := st.totalSize,
    ContentType := env.DetectContentType st.buffer, OwnerID := firstChunk.UserId,
    Versions := [] }

/-- The `models.FileVersion` that `UploadFile` builds; it sets neither `ID` nor
`VersionNum`. -/
def uploadVersion (env : UploadEnv) (firstChunk : FileChunk) (st : Staging) : FileVersion :=
  { ID := [], FileID := uploadFileID env firstChunk, VersionNum := 0,
    Hash := hexEncode (env.sha256 st.hashed), Size := st.totalSize,
    S3Key := uploadS3Key env firstChunk, DeviceID := firstChunk.DeviceId }

/-- The metadata transaction of `UploadFile`. -/
def uploadTransaction (db : Store) (env : UploadEnv) (file : File) (version : FileVersion) :
    Except DbError Store :=
  Transaction db env.commitFault (fun tx =>
    match txSaveFile tx env.saveFault env.fileHookUuid file with
    | .error e => .error e
    | .ok tx1 =>
      match txCreateVersion tx1 env.createFault env.versionHookUuid version with
      | .error e => .error e
      | .ok tx2 => .ok tx2)

/-- The method `FileGatewayService.UploadFile`; `committed` records whether the
metadata transaction committed. -/
def UploadFile (db : Store) (blobs : BlobStore) (env : UploadEnv) (stream : List Recv) :
    UploadResult :=
  match receive stream with
  | none => ⟨.error (.status .Internal), db, blobs, false⟩
  | some (firstChunk, st) =>
    match S3Client.UploadFile blobs env.s3Fault (uploadS3Key env firstChunk) st.buffer with
    | .error _ => ⟨.error (.status .Internal), db, blobs, false⟩
    | .ok blobs' =>
      match uploadTransaction db env (uploadFile env firstChunk st)
          (uploadVersion env firstChunk st) with
      | .error _ => ⟨.error (.status .Internal), db, blobs', false⟩
      | .ok db' =>
        match env.sendFault with
        | some n => ⟨.error (.stream n), db', blobs', true⟩
        | none =>
          ⟨.ok { FileId := uploadFileID env firstChunk,
                 Message := str "File uploaded successfully" }, db', blobs', true⟩

/-- The bytes of the chunks of an upload stream, in order of arrival. -/
def contentOf : List Recv → List Byte
  | [] => []
  | .chunk c :: rest => c.Content ++ contentOf rest
  | .failure _ :: rest => contentOf rest

structure FileDownloadRequest where
  FileId : GoString
deriving DecidableEq, Repr

/-- The read loop of `DownloadFile` over the results of the reader: the chunks
that `stream.Send` accepted and how the loop ends.  `sends` is the number of
`Send` calls that still succeed (`none`: the stream never breaks).  The slice
`buffer[:n]` faults when `n` exceeds the length of the buffer. -/
def readLoop : Reader → Option Nat → List (List Byte) × Outcome Unit
  | [], _ => ([], .ok ())
  | ⟨_, some .EOF⟩ :: _, _ => ([], .ok ())
  | ⟨_, some (.other _)⟩ :: _, _ => ([], .error (.status .Internal))
  | ⟨data, none⟩ :: rest, sends =>
    if chunkSize < data.length then ([], .fault)
    else if sends = some 0 then ([], .error (.status .Internal))
    else
      let tail := readLoop rest (sends.map (fun k => k - 1))
      (data :: tail.1, tail.2)

/-- The state after a call of `DownloadFile`: the outcome, the chunks sent on
the stream in order, and the keys requested from the blob store. -/
structure DownloadResult where
  outcome : Outcome Unit
  sent : List (List Byte)
  blobReads : List GoString
deriving DecidableEq, Repr

/-- What one call of `DownloadFile` takes from outside. -/
structure DownloadEnv where
  qfault : Option Nat
  s3Fault : Option Nat
  reads : List Byte → Reader
  sends : Option Nat

/-- The method `FileGatewayService.DownloadFile`. -/
def DownloadFile (db : Store) (blobs : BlobStore) (env : DownloadEnv)
    (req : FileDownloadRequest) : DownloadResult :=
  match preloadFirst db env.qfault req.FileId with
  | .error _ => ⟨.error (.status .NotFound), [], []⟩
  | .ok file =>
    match file.Versions.getLast? with
    | none => ⟨.error (.status .NotFound), [], []⟩
    | some version =>
      match S3Client.DownloadFile blobs env.s3Fault env.reads version.S3Key with
      | .error _ => ⟨.error (.status .Internal), [], [version.S3Key]⟩
      | .ok reader =>
        let r := readLoop reader env.sends
        ⟨r.2, r.1, [version.S3Key]⟩

/-! ## Sync coordinator: `SyncFile` (`internal/sync/sync.service.go`) -/

inductive SyncStatus where
  | SYNCED
  | NEEDS_UPDATE
  | CONFLICT
  | ERROR
deriving DecidableEq, Repr

structure SyncRequest where
  FileId : GoString
  FileHash : GoString
  DeviceId : GoString
deriving DecidableEq, Repr

/-- The message `proto.SyncResponse`; an unset string field is empty. -/
structure SyncResponse where
  Status : SyncStatus
  Message : GoString
  LatestVersionId : GoString
deriving DecidableEq, Repr

/-- The method `SyncService.SyncFile`.  The expression
`file.Versions[len(file.Versions)-1]` faults on an empty slice. -/
def SyncFile (db : Store) (qfault : Option Nat) (req : SyncRequest) : Outcome SyncResponse :=
  match preloadFirst db qfault req.FileId with
  | .error .ErrRecordNotFound =>
    .ok { Status := .ERROR, Message := str "File not found", LatestVersionId := [] }
  | .error e => .error (.db e)
  | .ok file =>
    match file.Versions.getLast? with
    | none => .fault
    | some latestVersion =>
      if latestVersion.Hash = req.FileHash then
        .ok { Status := .SYNCED, Message := str "File is up to date",
              LatestVersionId := latestVersion.ID }
      else if latestVersion.Hash ≠ req.FileHash ∧ latestVersion.DeviceID ≠ req.DeviceId then
        .ok { Status := .CONFLICT, Message := str "Conflict detected",
              LatestVersionId := latestVersion.ID }
      else
        .ok { Status := .NEEDS_UPDATE, Message := str "File needs update",
              LatestVersionId := latestVersion.ID }

/-- The decision table of the spec (section 4.2, rows 2 to 4), as a function
of the two comparison facts: whether the claimed hash equals the latest
version's hash, and whether the requesting device is the latest version's
origin device. -/
def decisionTable (hashEqual sameDevice : Bool) : SyncStatus :=
  if hashEqual then .SYNCED
  else if sameDevice then .NEEDS_UPDATE
  else .CONFLICT

/-! ### The contract of `io.Reader` and the chunking of the spec -/

/-- The bytes a reader hands out up to and including its first `Read` that
returns an error. -/
def delivered : Reader → List Byte
  | [] => []
  | r :: rest =>
    match r.err with
    | none => r.data ++ delivered rest
    | some _ => r.data

/-- The first error a reader returns is `io.EOF`. -/
def endsAtEOF : Reader → Bool
  | [] => true
  | r :: rest =>
    match r.err with
    | none => endsAtEOF rest
    | some .EOF => true
    | some (.other _) => false

/-- The contract of `io.Reader` for a reader over a stored object that is read
with a buffer of `size` bytes: every `Read` returns at most `size` bytes, and
the bytes handed out up to the end of the stream, which is signalled by
`io.EOF`, are those of the object.  The contract leaves open how many bytes a
`Read` returns and whether the last bytes come together with `io.EOF`. -/
def ObeysReader (object : List Byte) (size : Nat) (reader : Reader) : Prop :=
  delivered reader = object ∧ endsAtEOF reader = true ∧ ∀ r ∈ reader, r.data.length ≤ size

instance (object : List Byte) (size : Nat) (reader : Reader) :
    Decidable (ObeysReader object size reader) := by
  unfold ObeysReader; infer_instance

/-- A reader that returns `io.EOF` only from a `Read` that returns no bytes. -/
def cleanEOF (reader : Reader) : Prop :=
  ∀ r ∈ reader, r.err = some .EOF → r.data = []

instance (reader : Reader) : Decidable (cleanEOF reader) := by
  unfold cleanEOF; infer_instance

/-- The chunking the spec describes for a download: no chunk is empty, every
chunk holds at most `chunkSize` bytes and every chunk but the last exactly
`chunkSize`. -/
def FixedSizeChunks (chunks : List (List Byte)) : Prop :=
  (∀ c ∈ chunks, c ≠ [] ∧ c.length ≤ chunkSize) ∧ ∀ c ∈ chunks.dropLast, c.length = chunkSize

instance (chunks : List (List Byte)) : Decidable (FixedSizeChunks chunks) := by
  unfold FixedSizeChunks; infer_instance

/-! ## Change bus (`internal/utils/kafka.go`) -/

/-- The struct `utils.FileChangeMessage`; `Timestamp` is an instant. -/
structure FileChangeMessage where
  FileID : GoString
  FilePath : GoString
  ChangeType : GoString
  Timestamp : Nat
  DeviceID : GoString
  VersionID : GoString
  UserID : GoString
deriving DecidableEq, Repr

/-- One turn of the loop of `SubscribeToFileChanges` in which the context is
not yet done: `ReadMessage` fails, the payload is not valid JSON, or a message
is decoded.  With a message comes what the callback takes from outside, of
type `ω`, if it runs on that message. -/
inductive Delivery (ω : Type) where
  | readError
  | badPayload
  | message (m : FileChangeMessage) (outside : ω)

/-- How a loop that may call `log.Fatalf` ends: it returns nil (its context is
done), or `log.Fatalf` ends the process. -/
inductive LoopEnd where
  | returned
  | fatal
deriving DecidableEq, Repr

/-- The method `KafkaClient.SubscribeToFileChanges`, over the deliveries made
before the context is done.  The callback works on a state `σ` and either
returns or ends the process. -/
def SubscribeToFileChanges {σ ω : Type} (userID : GoString)
    (callback : σ → ω → FileChangeMessage → σ × LoopEnd) : List (Delivery ω) → σ → σ × LoopEnd
  | [], st => (st, .returned)
  | .readError :: _, st => (st, .fatal)
  | .badPayload :: _, st => (st, .fatal)
  | .message fileChange outside :: rest, st =>
    if fileChange.UserID = userID then
      match callback st outside fileChange with
      | (st', .fatal) => (st', .fatal)
      | (st', .returned) => SubscribeToFileChanges userID callback rest st'
    else SubscribeToFileChanges userID callback rest st

/-! ## Sync coordinator: `handleFileChange` and `WatchFileChanges` -/

/-- What one call of `handleFileChange` takes from outside. -/
structure ChangeEnv where
  fileHookUuid : GoString
  versionUuid : GoString
  versionHookUuid : GoString
  saveFault : Option Nat
  createFault : Option Nat
  commitFault : Option Nat

/-- The method `SyncService.handleFileChange`: the store after the
transaction, or its error. -/
def handleFileChange (db : Store) (env : ChangeEnv) (msg : FileChangeMessage) :
    Except DbError Store :=
  Transaction db env.commitFault (fun tx =>
    let file : File :=
      { ID := msg.FileID, Name := [], Path := msg.FilePath, Size := 0, ContentType := [],
        OwnerID := msg.UserID, Versions := [] }
    match txSaveFile tx env.saveFault env.fileHookUuid file with
    | .error e => .error e
    | .ok tx1 =>
      let version : FileVersion :=
        { ID := env.versionUuid, FileID := msg.FileID, VersionNum := 0, Hash := [], Size := 0,
          S3Key := [], DeviceID := msg.DeviceID }
      match txCreateVersion tx1 env.createFault env.versionHookUuid version with
      | .error e => .error e
      | .ok tx2 => .ok tx2)

inductive ChangeKind where
  | CREATED
  | MODIFIED
  | DELETED
  | RENAMED
deriving DecidableEq, Repr

/-- The message `proto.FileChangeEvent`; `CREATED` is the zero value of the
enumeration. -/
structure FileChangeEvent where
  FileId : GoString
  FilePath : GoString
  DeviceId : GoString
  Timestamp : Nat
  VersionId : GoString
  ChangeType : ChangeKind
deriving DecidableEq, Repr

structure WatchRequest where
  UserId : GoString
  DeviceId : GoString
  FolderPaths : List GoString
deriving DecidableEq, Repr

/-- The state a watch session works on: the metadata store, the messages given
to `handleFileChange` so far and the events sent on the outbound stream so
far, oldest first. -/
structure Session where
  db : Store
  applied : List FileChangeMessage
  sent : List FileChangeEvent

/-- The `switch msg.ChangeType` of the callback. -/
def changeKindOf (changeType : GoString) : ChangeKind :=
  if changeType = str "CREATED" then .CREATED
  else if changeType = str "MODIFIED" then .MODIFIED
  else if changeType = str "DELETED" then .DELETED
  else if changeType = str "RENAMED" then .RENAMED
  else .CREATED

/-- The callback that `WatchFileChanges` passes to `SubscribeToFileChanges`;
from outside it takes the environment of `handleFileChange` and whether
`stream.Send` fails. -/
def watchCallback (req : WatchRequest) (st : Session) (outside : ChangeEnv × Bool)
    (msg : FileChangeMessage) : Session × LoopEnd :=
  if msg.DeviceID = req.DeviceId then (st, .returned)
  else
    match handleFileChange st.db outside.1 msg with
    | .error _ => ({ st with applied := st.applied ++ [msg] }, .fatal)
    | .ok db' =>
      let event : FileChangeEvent :=
        { FileId := msg.FileID, FilePath := msg.FilePath, DeviceId := msg.DeviceID,
          Timestamp := msg.Timestamp, VersionId := msg.VersionID,
          ChangeType := changeKindOf msg.ChangeType }
      if outside.2 then
        ({ db := db', applied := st.applied ++ [msg], sent := st.sent }, .fatal)
      else
        ({ db := db', applied := st.applied ++ [msg], sent := st.sent ++ [event] }, .returned)

/-- The bus subscription of `SyncService.WatchFileChanges`, from the point where
the watcher has been set up. -/
def WatchFileChanges (req : WatchRequest) (deliveries : List (Delivery (ChangeEnv × Bool)))
    (st : Session) : Session × LoopEnd :=
  SubscribeToFileChanges req.UserId (watchCallback req) deliveries st

/-- Whether a delivery gets past both filters of a watch session: it is a
message of the user of the session that comes from another device, or it is
not a message at all. -/
def passes {ω : Type} (req : WatchRequest) : Delivery ω → Bool
  | .message m _ => decide (m.UserID = req.UserId) && decide (m.DeviceID ≠ req.DeviceId)
  | _ => true

/-! ## Filesystem watcher (`internal/sync/file_watcher.go`) -/

/-- The path separator of `path/filepath` (Unix). -/
def Separator : Byte := 47

/-- The function `filepath.Base` of the Go library (Unix, where the volume
name is empty): the last element of the path after trailing separators are
removed; `.` for the empty path, the separator for a path of separators. -/
def Base (path : GoString) : GoString :=
  if path = [] then [46]
  else
    let stripped := path.rdropWhile (fun b => b = Separator)
    let last := stripped.rtakeWhile (fun b => b ≠ Separator)
    if last = [] then [Separator] else last

/-- The operation bits of `fsnotify.Op`. -/
def Create : Nat := 1
def Write : Nat := 2
def Remove : Nat := 4
def Rename : Nat := 8
def Chmod : Nat := 16

/-- The struct `fsnotify.Event`. -/
structure Event where
  Name : GoString
  Op : Nat
deriving DecidableEq, Repr

structure FileWatcher where
  userID : GoString
  deviceID : GoString
deriving DecidableEq, Repr

/-- The `switch` of `Start` that names the change; `none` is its `default`. -/
def classify (op : Nat) : Option GoString :=
  if op &&& Create = Create then some (str "CREATED")
  else if op &&& Write = Write then some (str "MODIFIED")
  else if op &&& Remove = Remove then some (str "DELETED")
  else if op &&& Rename = Rename then some (str "RENAMED")
  else none

/-- What the watcher does with one event. -/
inductive Handled where
  | skipped
  | published (msg : FileChangeMessage)
  | fatal
  | fault
deriving DecidableEq, Repr

/-- The body of the `case event, ok := <-fw.watcher.Events` of `Start` for an
event that was received: `uuid` and `now` are the results of
`uuid.New().String()` and `time.Now()`, `publishFails` says whether
`PublishFileChange` returns an error.  Reading byte 0 of an empty base name
is a fault. -/
def FileWatcher.handle (fw : FileWatcher) (uuid : GoString) (now : Nat) (publishFails : Bool)
    (event : Event) : Handled :=
  match Base event.Name with
  | [] => .fault
  | first :: _ =>
    if first = 46 then .skipped
    else
      match classify event.Op with
      | none => .skipped
      | some changeType =>
        let msg : FileChangeMessage :=
          { FileID := uuid, FilePath := event.Name, ChangeType := changeType, Timestamp := now,
            DeviceID := fw.deviceID, VersionID := [], UserID := fw.userID }
        if publishFails then .fatal else .published msg

/-- What one turn of the `select` of `Start` receives: the context is done, an
event (with what handling it takes from outside), the closing of a channel, or
an error of the watcher. -/
inductive Received where
  | done
  | event (e : Event) (uuid : GoString) (now : Nat) (publishFails : Bool)
  | eventsClosed
  | error
  | errorsClosed

/-- How `Start` ends: it returns nil, `log.Fatalf` ends the process, or a
fault. -/
inductive StartEnd where
  | returned
  | fatal
  | fault
deriving DecidableEq, Repr

/-- The method `FileWatcher.Start`: the messages published to the change bus,
in order, and how the loop ends.  When nothing more is received the context
is done. -/
def FileWatcher.Start (fw : FileWatcher) : List Received → List FileChangeMessage × StartEnd
  | [] => ([], .returned)
  | .done :: _ => ([], .returned)
  | .eventsClosed :: _ => ([], .returned)
  | .errorsClosed :: _ => ([], .returned)
  | .error :: _ => ([], .fatal)
  | .event e uuid now publishFails :: rest =>
    match fw.handle uuid now publishFails e with
    | .skipped => fw.Start rest
    | .published msg => let r := fw.Start rest; (msg :: r.1, r.2)
    | .fatal => ([], .fatal)
    | .fault => ([], .fault)

/-! ## Listing (`FileGatewayService.ListFiles`) -/

/-- The Go conversion to `int32`: two's complement wrap-around. -/
def int32 (n : Int) : Int := (n + 2 ^ 31) % 2 ^ 32 - 2 ^ 31

/-- The SQL operator `LIKE` of the database (PostgreSQL, default escape
character), on strings of single-byte characters: in the pattern `%` (37)
stands for any sequence of characters, `_` (95) for any one character, and the
character after a backslash (92) for itself.  `escaped` says that the previous
pattern character was an unescaped backslash. -/
def likeAux : Bool → List Byte → List Byte → Bool
  | escaped, [], s => !escaped && s.isEmpty
  | true, c :: p, s =>
    match s with
    | [] => false
    | x :: t => decide (x = c) && likeAux false p t
  | false, c :: p, s =>
    if c = 92 then likeAux true p s
    else if c = 37 then s.tails.any (fun t => likeAux false p t)
    else
      match s with
      | [] => false
      | x :: t => (decide (c = 95) || decide (x = c)) && likeAux false p t

/-- The condition `value LIKE pattern`. -/
def like (value pattern : GoString) : Bool := likeAux false pattern value

/-- The fields of `proto.ListFilesRequest`.  The generated package
`internal/proto` is not part of the sources; `Page` and `PageSize` are 32-bit
integers like `TotalCount`, whose conversion `int32(totalCount)` the method
shows. -/
structure ListFilesRequest where
  UserId : GoString
  FolderPath : GoString
  Page : Int
  PageSize : Int
deriving DecidableEq, Repr

/-- The message `proto.FileMetadataResponse`, without the two time stamps. -/
structure FileMetadataResponse where
  FileId : GoString
  FileName : GoString
  Size : Int
  ContentType : GoString
  VersionId : GoString
  OwnerId : GoString
deriving DecidableEq, Repr

structure ListFilesResponse where
  TotalCount : Int
  Files : List FileMetadataResponse
deriving DecidableEq, Repr

/-- What one call of `ListFiles` takes from outside: the failures of its two
queries, and what `Limit(0)` means in the version of gorm in use (no row at
all, or no limit). -/
structure ListEnv where
  countFault : Option Nat
  findFault : Option Nat
  limitZeroIsEmpty : Bool

/-- The rows selected by the conditions of `query`:
`owner_id = ?` and, for a non-empty folder path, `path LIKE ?` with the
pattern `req.FolderPath+"%"`. -/
def listQuery (db : Store) (req : ListFilesRequest) : List File :=
  db.files.filter (fun f =>
    decide (f.OwnerID = req.UserId) &&
      (decide (req.FolderPath = []) || like f.Path (req.FolderPath ++ [37])))

/-- The clause `Offset(n)` of gorm: it is written only for a positive `n`. -/
def gormOffset (n : Int) (rows : List File) : List File :=
  if 0 < n then rows.drop n.toNat else rows

/-- The clause `Limit(n)` of gorm: a negative `n` sets no limit. -/
def gormLimit (limitZeroIsEmpty : Bool) (n : Int) (rows : List File) : List File :=
  if 0 < n then rows.take n.toNat
  else if n = 0 ∧ limitZeroIsEmpty = true then []
  else rows

/-- The entry of the response for one file and its latest version. -/
def listEntry (file : File) (latestVersion : FileVersion) : FileMetadataResponse :=
  { FileId := file.ID, FileName := file.Name, Size := file.Size,
    ContentType := file.ContentType, VersionId := latestVersion.ID, OwnerId := file.OwnerID }

/-- The loop of `ListFiles` over the files found; `none` when the index
`len(file.Versions)-1` is out of range for one of them. -/
def listEntries : List File → Option (List FileMetadataResponse)
  | [] => some []
  | file :: rest =>
    match file.Versions.getLast? with
    | none => none
    | some latestVersion =>
      match listEntries rest with
      | none => none
      | some entries => some (listEntry file latestVersion :: entries)

/-- The method `FileGatewayService.ListFiles`. -/
def ListFiles (db : Store) (env : ListEnv) (req : ListFilesRequest) : Outcome ListFilesResponse :=
  match env.countFault with
  | some _ => .error (.status .Internal)
  | none =>
    let totalCount : Int := (listQuery db req).length
    let offset := int32 (int32 (req.Page - 1) * req.PageSize)
    match env.findFault with
    | some _ => .error (.status .Internal)
    | none =>
      let files :=
        (gormLimit env.limitZeroIsEmpty req.PageSize (gormOffset offset (listQuery db req))).map
          (fun f => { f with Versions := db.versions.filter (fun v => v.FileID = f.ID) })
      match listEntries files with
      | none => .fault
      | some entries => .ok { TotalCount := int32 totalCount, Files := entries }

/-- The selection the spec describes for a listing: the files of the user
whose path starts with the folder prefix, when one is given. -/
def matchingFiles (db : Store) (req : ListFilesRequest) : List File :=
  db.files.filter (fun f =>
    decide (f.OwnerID = req.UserId) &&
      (decide (req.FolderPath = []) || decide (req.FolderPath <+: f.Path)))

/-! ## Sequences of calls and the consistency of the store -/

/-- One call of an operation that writes to the metadata store, with what it
takes from outside. -/
inductive Call where
  | upload (env : UploadEnv) (stream : List Recv)
  | change (env : ChangeEnv) (msg : FileChangeMessage)
  | resolve (env : ResolveEnv) (req : ConflictResolutionRequest)

/-- The metadata store and the blob store. -/
structure System where
  db : Store
  blobs : BlobStore

/-- The state after one call; a call that fails leaves the metadata store as
it was. -/
def step (s : System) : Call → System
  | .upload env stream =>
    ⟨(UploadFile s.db s.blobs env stream).db, (UploadFile s.db s.blobs env stream).blobs⟩
  | .change env msg =>
    match handleFileChange s.db env msg with
    | .ok db' => ⟨db', s.blobs⟩
    | .error _ => s
  | .resolve env req => ⟨(ResolveConflict s.db env req).2, s.blobs⟩

/-- The state after a sequence of calls, starting from empty stores. -/
def run (calls : List Call) : System :=
  calls.foldl step ⟨⟨[], []⟩, []⟩

/-- Every file row has a version row that refers to it, and every version row
refers to a file row. -/
def Consistent (db : Store) : Prop :=
  (∀ f ∈ db.files, ∃ v ∈ db.versions, v.FileID = f.ID) ∧
  (∀ v ∈ db.versions, ∃ f ∈ db.files, f.ID = v.FileID)

/-- The strings that `uuid.New().String()` returns to a call are not empty. -/
def Call.uuidsNonEmpty : Call → Prop
  | .upload env _ => env.fileUuid ≠ [] ∧ env.fileHookUuid ≠ [] ∧ env.versionHookUuid ≠ []
  | .change env _ => env.fileHookUuid ≠ [] ∧ env.versionUuid ≠ [] ∧ env.versionHookUuid ≠ []
  | .resolve env _ => env.newVersionUuid ≠ [] ∧ env.hookUuid ≠ [] ∧ env.responseUuid ≠ []

instance (c : Call) : Decidable c.uuidsNonEmpty := by
  cases c <;> (unfold Call.uuidsNonEmpty; infer_instance)

/-! ## Example data -/

/-- The store of the scenario of the spec after the second upload: one file
with two versions, both from device `A`. -/
def scenarioStore : Store :=
  { files := [{ ID := str "f", Name := str "report.txt", Path := str "k", Size := 2,
                ContentType := str "text/plain", OwnerID := str "u", Versions := [] }],
    versions :=
      [{ ID := str "v1", FileID := str "f", VersionNum := 0, Hash := str "H1", Size := 2,
         S3Key := str "k", DeviceID := str "A" },
       { ID := str "v2", FileID := str "f", VersionNum := 0, Hash := str "H2", Size := 2,
         S3Key := str "k", DeviceID := str "A" }] }

/-- A store with one file record and no version. -/
def bareFileStore : Store :=
  { files := [{ ID := str "f", Name := str "n", Path := str "k", Size := 0,
                ContentType := [], OwnerID := str "u", Versions := [] }],
    versions := [] }

/-- An environment of `ResolveConflict` in which nothing fails and the three
UUIDs drawn are `n1`, `h`, `n2`. -/
def resolveEnvExample : ResolveEnv :=
  { newVersionUuid := str "n1", hookUuid := str "h", responseUuid := str "n2",
    createFault := none, updateFault := none, commitFault := none }

/-- An environment of `UploadFile` in which nothing fails; the digest, the
content type and the storage key are stand-ins. -/
def uploadEnvExample (versionUuid : GoString) : UploadEnv :=
  { fileUuid := str "f", fileHookUuid := str "g", versionHookUuid := versionUuid,
    sha256 := fun bytes => bytes.take 1,
    DetectContentType := fun _ => str "text/plain",
    GenerateS3Key := fun user device name => user ++ device ++ name,
    s3Fault := none, saveFault := none, createFault := none, commitFault := none,
    sendFault := none }

/-- A first chunk of an upload, for the file `fileId` (empty: a new file). -/
def firstChunkExample (fileId : GoString) (content : List Byte) : Recv :=
  .chunk { FileId := fileId, FileName := str "r", UserId := str "u", DeviceId := str "A",
           Content := content }

/-- A later chunk of an upload. -/
def nextChunkExample (content : List Byte) : Recv :=
  .chunk { FileId := [], FileName := [], UserId := [], DeviceId := [], Content := content }

/-- A first upload into the empty store: the bytes 1 2 3 in two chunks. -/
def firstUpload : UploadResult :=
  UploadFile ⟨[], []⟩ [] (uploadEnvExample (str "v1"))
    [firstChunkExample [] [1, 2], nextChunkExample [3]]

/-- A second upload for the file of the first: the bytes 4 5 in one chunk. -/
def secondUpload : UploadResult :=
  UploadFile firstUpload.db firstUpload.blobs (uploadEnvExample (str "v2"))
    [firstChunkExample (str "f") [4, 5]]

/-- A reader that hands out the whole object in one `Read`, together with
`io.EOF`. -/
def readAllWithEOF (object : List Byte) : Reader :=
  [⟨object, some .EOF⟩]

/-- A reader that first returns no bytes and no error, and then one byte per
`Read`. -/
def readByteWise (object : List Byte) : Reader :=
  ⟨[], none⟩ :: object.map (fun b => ⟨[b], none⟩)

/-- An environment of `handleFileChange` in which nothing fails. -/
def changeEnvExample (versionUuid : GoString) : ChangeEnv :=
  { fileHookUuid := str "g", versionUuid := versionUuid, versionHookUuid := str "h",
    saveFault := none, createFault := none, commitFault := none }

/-- A change message of user `u`. -/
def changeExample (fileID deviceID : GoString) : FileChangeMessage :=
  { FileID := fileID, FilePath := str "/d/a.txt", ChangeType := str "MODIFIED", Timestamp := 5,
    DeviceID := deviceID, VersionID := [], UserID := str "u" }

/-- The deliveries of a session of user `u` on device `A`: an echo of the own
device `A` and a change from device `B`. -/
def deliveriesExample : List (Delivery (ChangeEnv × Bool)) :=
  [.message (changeExample (str "f1") (str "A")) (changeEnvExample (str "w1"), false),
   .message (changeExample (str "f2") (str "B")) (changeEnvExample (str "w2"), false)]

/-- The request that opens the session of user `u` on device `A`. -/
def watchRequestExample : WatchRequest :=
  { UserId := str "u", DeviceId := str "A", FolderPaths := [] }

/-- The watcher of user `u` on device `A`. -/
def watcherExample : FileWatcher :=
  { userID := str "u", deviceID := str "A" }

/-- The file number `n` of user `u`, with path `docs/` followed by the byte
`n`. -/
def numberedFile (n : Nat) : File :=
  { ID := [Fin.ofNat n], Name := str "n", Path := str "docs/" ++ [Fin.ofNat n], Size := 1,
    ContentType := [], OwnerID := str "u", Versions := [] }

/-- The single version of the file number `n`. -/
def numberedVersion (n : Nat) : FileVersion :=
  { ID := [86, Fin.ofNat n], FileID := [Fin.ofNat n], VersionNum := 0, Hash := [], Size := 1,
    S3Key := [], DeviceID := str "A" }

/-- A store with the files 1 to 25 of user `u`, one version each. -/
def twentyFiveFiles : Store :=
  { files := (List.range 25).map (fun n => numberedFile (n + 1)),
    versions := (List.range 25).map (fun n => numberedVersion (n + 1)) }

/-- A store with two files of user `u`, one under `my_docs/` and one under
`myXdocs/`, one version each. -/
def underscoreStore : Store :=
  { files :=
      [{ ID := str "f1", Name := str "a", Path := str "my_docs/a", Size := 1,
         ContentType := [], OwnerID := str "u", Versions := [] },
       { ID := str "f2", Name := str "b", Path := str "myXdocs/b", Size := 1,
         ContentType := [], OwnerID := str "u", Versions := [] }],
    versions :=
      [{ ID := str "v1", FileID := str "f1", VersionNum := 0, Hash := [], Size := 1,
         S3Key := [], DeviceID := str "A" },
       { ID := str "v2", FileID := str "f2", VersionNum := 0, Hash := [], Size := 1,
         S3Key := [], DeviceID := str "A" }] }

/-- The store after the change message of device `B` for the file `f` of the
scenario has been applied. -/
def afterChange : Store :=
  match handleFileChange scenarioStore (changeEnvExample (str "w1"))
      (changeExample (str "f") (str "B")) with
  | .ok db => db
  | .error _ => scenarioStore

/-- A sequence of calls: an upload of a new file, a change message for another
file, a conflict resolution on the uploaded file, and a conflict resolution on
a file that does not exist; both resolutions fail. -/
def callsExample : List Call :=
  [.upload (uploadEnvExample (str "v1")) [firstChunkExample [] [1, 2], nextChunkExample [3]],
   .change (changeEnvExample (str "w2")) (changeExample (str "f2") (str "B")),
   .resolve resolveEnvExample ⟨str "f", [str "v1"]⟩,
   .resolve resolveEnvExample ⟨str "nofile", []⟩]

/-- The total count and the file ids of a listing that returned a response. -/
def listedIds : Outcome ListFilesResponse → Option (Int × List GoString)
  | .ok r => some (r.TotalCount, r.Files.map (fun e => e.FileId))
  | _ => none

/-! # Theorems -/

/-! ## Properties of `SyncFile` -/

/-- C1: for a file record with at least one version, `SyncFile` returns a
response and no error; its status is `SYNCED` when the claimed hash equals the
hash of the last version, `NEEDS_UPDATE` when the hashes differ and the
requesting device is the device of the last version, `CONFLICT` when both
differ; the status is the decision table applied to these two comparison
facts, and `LatestVersionId` is the id of the last version. -/
theorem SyncFile_classifies (db : Store) (qfault : Option Nat) (req : SyncRequest) (file : File)
    (hfile : preloadFirst db qfault req.FileId = .ok file) (hne : file.Versions ≠ []) :
    ∃ resp : SyncResponse,
      SyncFile db qfault req = .ok resp ∧
      resp.LatestVersionId = (file.Versions.getLast hne).ID ∧
      resp.Status = decisionTable (decide (req.FileHash = (file.Versions.getLast hne).Hash))
        (decide (req.DeviceId = (file.Versions.getLast hne).DeviceID)) ∧
      (req.FileHash = (file.Versions.getLast hne).Hash → resp.Status = .SYNCED) ∧
      (req.FileHash ≠ (file.Versions.getLast hne).Hash →
        req.DeviceId = (file.Versions.getLast hne).DeviceID → resp.Status = .NEEDS_UPDATE) ∧
      (req.FileHash ≠ (file.Versions.getLast hne).Hash →
        req.DeviceId ≠ (file.Versions.getLast hne).DeviceID → resp.Status = .CONFLICT) := by
  have hlast : file.Versions.getLast? = some (file.Versions.getLast hne) :=
    List.getLast?_eq_getLast _ hne
  generalize file.Versions.getLast hne = latest at hlast ⊢
  unfold SyncFile
  rw [hfile]
  simp only [hlast]
  by_cases hh : latest.Hash = req.FileHash
  · refine ⟨_, by rw [if_pos hh], rfl, ?_, ?_, ?_, ?_⟩
    · simp [decisionTable, hh]
    · intro _; rfl
    · intro h; exact absurd hh.symm h
    · intro h; exact absurd hh.symm h
  · have hh' : req.FileHash ≠ latest.Hash := fun h => hh h.symm
    by_cases hd : latest.DeviceID = req.DeviceId
    · refine ⟨_, by rw [if_neg hh, if_neg (by simp [hd])], rfl, ?_, ?_, ?_, ?_⟩
      · simp [decisionTable, hh', hd]
      · intro h; exact absurd h hh'
      · intro _ _; rfl
      · intro _ h; exact absurd hd.symm h
    · have hd' : req.DeviceId ≠ latest.DeviceID := fun h => hd h.symm
      refine ⟨_, by rw [if_neg hh, if_pos ⟨hh, hd⟩], rfl, ?_, ?_, ?_, ?_⟩
      · simp [decisionTable, hh', hd']
      · intro h; exact absurd h hh'
      · intro _ h; exact absurd h hd'
      · intro _ _; rfl

/-- C1 at the scenario of the spec: device `B` claims the stale hash `H1`
against the two-version file; the theorem applies and the status is
`CONFLICT`. -/
theorem SyncFile_classifies_witness :
    ∃ resp : SyncResponse,
      SyncFile scenarioStore none ⟨str "f", str "H1", str "B"⟩ = .ok resp ∧
      resp.LatestVersionId = str "v2" ∧ resp.Status = .CONFLICT := by
  have hfile : preloadFirst scenarioStore none (str "f") =
      .ok { ID := str "f", Name := str "report.txt", Path := str "k", Size := 2,
            ContentType := str "text/plain", OwnerID := str "u",
            Versions := scenarioStore.versions } := by decide
  obtain ⟨resp, h1, h2, _, _, _, h6⟩ :=
    SyncFile_classifies scenarioStore none ⟨str "f", str "H1", str "B"⟩ _ hfile (by decide)
  exact ⟨resp, h1, h2, h6 (by decide) (by decide)⟩

/-- C2: a file record without versions makes `SyncFile` stop with a fault (the
index `len(file.Versions)-1` is out of range) instead of returning the
not-found response; `DownloadFile` guards the same case and returns
`NotFound`. -/
theorem SyncFile_no_versions_faults :
    SyncFile bareFileStore none ⟨str "f", str "H1", str "A"⟩ = .fault ∧
    (DownloadFile bareFileStore [] ⟨none, none, fun _ => [], none⟩ ⟨str "f"⟩).outcome =
      .error (.status .NotFound) := by
  constructor <;> decide

/-! ## Properties of `UploadFile` -/

theorem txSaveFile_versions {db db1 : Store} {fault : Option Nat} {fresh : GoString} {file : File}
    (h : txSaveFile db fault fresh file = .ok db1) : db1.versions = db.versions := by
  unfold txSaveFile at h
  split at h
  · cases h
  · split at h
    · dsimp only at h
      split at h
      · cases h
      · cases h; rfl
    · split at h
      · cases h; rfl
      · cases h; rfl

theorem txCreateVersion_ok {db db1 : Store} {fault : Option Nat} {fresh : GoString}
    {version : FileVersion} (h : txCreateVersion db fault fresh version = .ok db1) :
    db1 = { db with versions := db.versions ++ [version.BeforeCreate fresh] } ∧ fault = none := by
  unfold txCreateVersion at h
  dsimp only at h
  split at h
  · cases h
  · split at h
    · cases h
    · split at h
      · cases h; exact ⟨rfl, rfl⟩
      · cases h

theorem Transaction_ok {db db1 : Store} {commitFault : Option Nat}
    {body : Store → Except DbError Store} (h : Transaction db commitFault body = .ok db1) :
    body db = .ok db1 ∧ commitFault = none := by
  unfold Transaction at h
  split at h
  · cases h
  · split at h
    · cases h
    · cases h; exact ⟨by assumption, rfl⟩

/-- A committed metadata transaction of `UploadFile` saved the file row and
appended the version row, after the hook gave it an id. -/
theorem uploadTransaction_ok {db db1 : Store} {env : UploadEnv} {file : File}
    {version : FileVersion} (h : uploadTransaction db env file version = .ok db1) :
    ∃ dbs, txSaveFile db env.saveFault env.fileHookUuid file = .ok dbs ∧
      db1 = { dbs with versions := db.versions ++ [version.BeforeCreate env.versionHookUuid] } := by
  obtain ⟨hbody, -⟩ := Transaction_ok h
  split at hbody
  · cases hbody
  · rename_i dbs hsave
    split at hbody
    · cases hbody
    · rename_i tx2 hcreate
      cases hbody
      obtain ⟨hdb, -⟩ := txCreateVersion_ok hcreate
      exact ⟨dbs, hsave, by rw [hdb, txSaveFile_versions hsave]⟩

/-- What a committed `UploadFile` did: it received a first chunk and staged
bytes, wrote the buffer to the blob store under the storage key and committed
the metadata transaction on the rows it built. -/
theorem UploadFile_committed {db : Store} {blobs : BlobStore} {env : UploadEnv}
    {stream : List Recv} (h : (UploadFile db blobs env stream).committed = true) :
    ∃ firstChunk st,
      receive stream = some (firstChunk, st) ∧
      (UploadFile db blobs env stream).blobs = (uploadS3Key env firstChunk, st.buffer) :: blobs ∧
      uploadTransaction db env (uploadFile env firstChunk st) (uploadVersion env firstChunk st) =
        .ok (UploadFile db blobs env stream).db := by
  unfold UploadFile at h ⊢
  cases hrecv : receive stream with
  | none => simp [hrecv] at h
  | some p =>
    obtain ⟨firstChunk, st⟩ := p
    simp only [hrecv] at h ⊢
    cases hs3 : env.s3Fault with
    | some n => simp [S3Client.UploadFile, hs3] at h
    | none =>
      simp only [S3Client.UploadFile, hs3] at h ⊢
      cases htx : uploadTransaction db env (uploadFile env firstChunk st)
          (uploadVersion env firstChunk st) with
      | error e => simp [htx] at h
      | ok db1 =>
        refine ⟨firstChunk, st, rfl, ?_⟩
        cases env.sendFault <;> simp <;> exact htx

/-- C4 (as the code has it): every upload that commits appends exactly one
version row after the existing rows, for the file of the upload, and the
`VersionNum` of that row is 0 whatever versions the file had before;
`UploadFile` never assigns the field. -/
theorem UploadFile_version_number_zero (db : Store) (blobs : BlobStore) (env : UploadEnv)
    (stream : List Recv) (h : (UploadFile db blobs env stream).committed = true) :
    ∃ v firstChunk rest,
      stream = .chunk firstChunk :: rest ∧
      (UploadFile db blobs env stream).db.versions = db.versions ++ [v] ∧
      v.FileID = uploadFileID env firstChunk ∧
      v.VersionNum = 0 := by
  obtain ⟨firstChunk, st, hrecv, -, htx⟩ := UploadFile_committed h
  obtain ⟨dbs, -, hdb⟩ := uploadTransaction_ok htx
  have hstream : ∃ rest, stream = .chunk firstChunk :: rest := by
    unfold receive at hrecv
    split at hrecv
    · cases hrecv
    · cases hrecv
    · rename_i c rest
      split at hrecv
      · cases hrecv
      · cases hrecv; exact ⟨rest, rfl⟩
  obtain ⟨rest, hstream⟩ := hstream
  refine ⟨(uploadVersion env firstChunk st).BeforeCreate env.versionHookUuid, firstChunk, rest,
    hstream, by rw [hdb], ?_, ?_⟩
  · unfold FileVersion.BeforeCreate; split <;> rfl
  · unfold FileVersion.BeforeCreate; split <;> rfl

/-- C4 at the first upload of the example: the upload commits and the theorem
gives its single version row. -/
theorem UploadFile_version_number_zero_witness :
    ∃ v firstChunk rest,
      [firstChunkExample [] [1, 2], nextChunkExample [3]] = Recv.chunk firstChunk :: rest ∧
      firstUpload.db.versions = [] ++ [v] ∧
      v.FileID = uploadFileID (uploadEnvExample (str "v1")) firstChunk ∧
      v.VersionNum = 0 :=
  UploadFile_version_number_zero ⟨[], []⟩ [] (uploadEnvExample (str "v1"))
    [firstChunkExample [] [1, 2], nextChunkExample [3]] (by decide)

/-- C4 fails as stated: the first version of a new file gets the number 0, not
1, and after a second committed upload for the same file both of its versions
carry the number 0, so the numbers are neither distinct nor increasing. -/
theorem UploadFile_version_numbers_repeat :
    firstUpload.committed = true ∧
    firstUpload.db.versions.map (fun v => (v.FileID, v.VersionNum)) = [(str "f", 0)] ∧
    (0 : Int) ≠ 1 ∧
    secondUpload.committed = true ∧
    secondUpload.db.versions.map (fun v => (v.ID, v.FileID, v.VersionNum)) =
      [(str "v1", str "f", 0), (str "v2", str "f", 0)] ∧
    ¬ (secondUpload.db.versions.map (fun v => v.VersionNum)).Nodup := by
  refine ⟨by decide, by decide, by decide, by decide, by decide, by decide⟩

theorem int64_of_small (n : Int) (h0 : 0 ≤ n) (h1 : n < 2 ^ 63) : int64 n = n := by
  unfold int64
  omega

theorem recvLoop_some {rest : List Recv} {st st' : Staging} (h : recvLoop rest st = some st') :
    st'.buffer = st.buffer ++ contentOf rest ∧
    st'.hashed = st.hashed ++ contentOf rest ∧
    (0 ≤ st.totalSize → st.totalSize + (contentOf rest).length < 2 ^ 63 →
      st'.totalSize = st.totalSize + (contentOf rest).length) := by
  induction rest generalizing st with
  | nil =>
    simp only [recvLoop, Option.some.injEq] at h
    subst h
    simp [contentOf]
  | cons r rest ih =>
    cases r with
    | failure n => simp [recvLoop] at h
    | chunk c =>
      simp only [recvLoop] at h
      obtain ⟨hb, hh, ht⟩ := ih h
      refine ⟨?_, ?_, ?_⟩
      · simp [hb, Staging.write, contentOf]
      · simp [hh, Staging.write, contentOf]
      · intro h0 hlt
        simp only [contentOf, List.length_append, Nat.cast_add] at hlt ⊢
        have hc : int64 (c.Content.length : Int) = c.Content.length :=
          int64_of_small _ (by omega) (by omega)
        have hw : (st.write c.Content).totalSize = st.totalSize + c.Content.length := by
          simp only [Staging.write, hc]
          exact int64_of_small _ (by omega) (by omega)
        rw [ht (by omega) (by omega), hw]
        omega

/-- What `receive` staged: buffer and hasher hold the bytes of all chunks in
order of arrival, the first included, and `totalSize` is their number. -/
theorem receive_some {stream : List Recv} {firstChunk : FileChunk} {st : Staging}
    (h : receive stream = some (firstChunk, st)) :
    st.buffer = contentOf stream ∧ st.hashed = contentOf stream ∧
    ((contentOf stream).length < 2 ^ 63 → st.totalSize = (contentOf stream).length) := by
  unfold receive at h
  split at h
  · cases h
  · cases h
  · rename_i c rest
    split at h
    · cases h
    · rename_i st1 hloop
      cases h
      obtain ⟨hb, hh, ht⟩ := recvLoop_some hloop
      refine ⟨?_, ?_, ?_⟩
      · simpa [Staging.write, contentOf] using hb
      · simpa [Staging.write, contentOf] using hh
      · intro hlt
        simp only [contentOf, List.length_append, Nat.cast_add] at hlt ⊢
        have hc : int64 (firstChunk.Content.length : Int) = firstChunk.Content.length :=
          int64_of_small _ (by omega) (by omega)
        have hw : (Staging.write ⟨[], [], 0⟩ firstChunk.Content).totalSize =
            firstChunk.Content.length := by
          simp only [Staging.write, hc, zero_add]
        rw [ht (by rw [hw]; omega) (by rw [hw]; omega), hw]

theorem txSaveFile_mem {db dbs : Store} {fault : Option Nat} {fresh : GoString} {file : File}
    (h : txSaveFile db fault fresh file = .ok dbs) : file.BeforeCreate fresh ∈ dbs.files := by
  unfold txSaveFile at h
  split at h
  · cases h
  · split at h
    · dsimp only at h
      split at h
      · cases h
      · cases h; simp
    · rename_i hid
      have hbc : file.BeforeCreate fresh = file := by simp [File.BeforeCreate, hid]
      rw [hbc]
      split at h
      · rename_i hany
        cases h
        obtain ⟨r, hr, hrid⟩ := List.any_eq_true.mp hany
        simp only [List.mem_map]
        exact ⟨r, hr, by simp [of_decide_eq_true hrid]⟩
      · cases h; simp

/-- What a committed `UploadFile` recorded: the version row it appended, the
file row it saved and the object it wrote, in terms of the bytes of the
stream. -/
theorem UploadFile_records {db : Store} {blobs : BlobStore} {env : UploadEnv}
    {stream : List Recv} (h : (UploadFile db blobs env stream).committed = true)
    (hlen : (contentOf stream).length < 2 ^ 63) :
    ∃ v f key,
      (UploadFile db blobs env stream).db.versions = db.versions ++ [v] ∧
      f ∈ (UploadFile db blobs env stream).db.files ∧
      (UploadFile db blobs env stream).blobs = (key, contentOf stream) :: blobs ∧
      v.S3Key = key ∧ f.Path = key ∧
      v.Hash = hexEncode (env.sha256 (contentOf stream)) ∧
      v.Size = ((contentOf stream).length : Int) ∧
      f.Size = ((contentOf stream).length : Int) := by
  obtain ⟨firstChunk, st, hrecv, hblobs, htx⟩ := UploadFile_committed h
  obtain ⟨dbs, hsave, hdb⟩ := uploadTransaction_ok htx
  obtain ⟨hb, hh, ht⟩ := receive_some hrecv
  refine ⟨(uploadVersion env firstChunk st).BeforeCreate env.versionHookUuid,
    (uploadFile env firstChunk st).BeforeCreate env.fileHookUuid, uploadS3Key env firstChunk,
    by rw [hdb], ?_, by rw [hblobs, hb], ?_, ?_, ?_, ?_, ?_⟩
  · rw [hdb]; show _ ∈ dbs.files; exact txSaveFile_mem hsave
  · unfold FileVersion.BeforeCreate; split <;> rfl
  · unfold File.BeforeCreate; split <;> rfl
  · rw [← hh]; unfold FileVersion.BeforeCreate; split <;> rfl
  · rw [← ht hlen]; unfold FileVersion.BeforeCreate; split <;> rfl
  · rw [← ht hlen]; unfold File.BeforeCreate; split <;> rfl

/-- C6: two uploads that commit and receive chunk sequences with the same
concatenation (under the same digest function) record the same content hash
and the same size on their new version and the same size on their file: the
hash is the hex encoding of the SHA-256 digest of the concatenation of all
chunks received, the first included, the size is the length of that
concatenation, and the concatenation is the object written to the blob store.
(`hlen`: a Go buffer holds fewer than 2^63 bytes.) -/
theorem UploadFile_chunking_irrelevant (dbA dbB : Store) (blobsA blobsB : BlobStore)
    (envA envB : UploadEnv) (streamA streamB : List Recv)
    (hsha : envA.sha256 = envB.sha256)
    (hcontent : contentOf streamA = contentOf streamB)
    (hlen : (contentOf streamA).length < 2 ^ 63)
    (hA : (UploadFile dbA blobsA envA streamA).committed = true)
    (hB : (UploadFile dbB blobsB envB streamB).committed = true) :
    ∃ vA vB fA fB keyA keyB,
      (UploadFile dbA blobsA envA streamA).db.versions = dbA.versions ++ [vA] ∧
      (UploadFile dbB blobsB envB streamB).db.versions = dbB.versions ++ [vB] ∧
      fA ∈ (UploadFile dbA blobsA envA streamA).db.files ∧
      fB ∈ (UploadFile dbB blobsB envB streamB).db.files ∧
      (UploadFile dbA blobsA envA streamA).blobs = (keyA, contentOf streamA) :: blobsA ∧
      (UploadFile dbB blobsB envB streamB).blobs = (keyB, contentOf streamA) :: blobsB ∧
      vA.S3Key = keyA ∧ fA.Path = keyA ∧ vB.S3Key = keyB ∧ fB.Path = keyB ∧
      vA.Hash = hexEncode (envA.sha256 (contentOf streamA)) ∧ vB.Hash = vA.Hash ∧
      vA.Size = ((contentOf streamA).length : Int) ∧ vB.Size = vA.Size ∧
      fA.Size = ((contentOf streamA).length : Int) ∧ fB.Size = fA.Size := by
  obtain ⟨vA, fA, keyA, a1, a2, a3, a4, a5, a6, a7, a8⟩ := UploadFile_records hA hlen
  obtain ⟨vB, fB, keyB, b1, b2, b3, b4, b5, b6, b7, b8⟩ :=
    UploadFile_records hB (by rw [← hcontent]; exact hlen)
  rw [← hcontent] at b3 b6 b7 b8
  rw [← hsha] at b6
  exact ⟨vA, vB, fA, fB, keyA, keyB, a1, b1, a2, b2, a3, b3, a4, a5, b4, b5, a6,
    b6.trans a6.symm, a7, b7.trans a7.symm, a8, b8.trans a8.symm⟩

/-- C6 on the bytes 1 2 3, received once as `[1 2] [3]` and once as
`[1] [2 3]`: both uploads commit and the theorem applies. -/
theorem UploadFile_chunking_irrelevant_witness :
    ∃ vA vB fA fB keyA keyB,
      firstUpload.db.versions = [] ++ [vA] ∧
      (UploadFile ⟨[], []⟩ [] (uploadEnvExample (str "v1"))
        [firstChunkExample [] [1], nextChunkExample [2, 3]]).db.versions = [] ++ [vB] ∧
      fA ∈ firstUpload.db.files ∧
      fB ∈ (UploadFile ⟨[], []⟩ [] (uploadEnvExample (str "v1"))
        [firstChunkExample [] [1], nextChunkExample [2, 3]]).db.files ∧
      firstUpload.blobs =
        (keyA, contentOf [firstChunkExample [] [1, 2], nextChunkExample [3]]) :: [] ∧
      (UploadFile ⟨[], []⟩ [] (uploadEnvExample (str "v1"))
        [firstChunkExample [] [1], nextChunkExample [2, 3]]).blobs =
        (keyB, contentOf [firstChunkExample [] [1, 2], nextChunkExample [3]]) :: [] ∧
      vA.S3Key = keyA ∧ fA.Path = keyA ∧ vB.S3Key = keyB ∧ fB.Path = keyB ∧
      vA.Hash = hexEncode ((uploadEnvExample (str "v1")).sha256
        (contentOf [firstChunkExample [] [1, 2], nextChunkExample [3]])) ∧
      vB.Hash = vA.Hash ∧
      vA.Size = ((contentOf [firstChunkExample [] [1, 2], nextChunkExample [3]]).length : Int) ∧
      vB.Size = vA.Size ∧
      fA.Size = ((contentOf [firstChunkExample [] [1, 2], nextChunkExample [3]]).length : Int) ∧
      fB.Size = fA.Size :=
  UploadFile_chunking_irrelevant ⟨[], []⟩ ⟨[], []⟩ [] [] (uploadEnvExample (str "v1"))
    (uploadEnvExample (str "v1")) [firstChunkExample [] [1, 2], nextChunkExample [3]]
    [firstChunkExample [] [1], nextChunkExample [2, 3]] rfl (by decide) (by decide)
    (by decide) (by decide)

/-- C5: upload followed by download loses bytes when the reader returns its
last bytes together with `io.EOF`.  The bytes 1 2 3 are uploaded in two
chunks and the upload succeeds with file id `f`; the reader over the stored
object obeys the contract of `io.Reader`; `DownloadFile` of `f` completes
without error and has sent no chunk at all. -/
theorem Upload_then_Download_drops_final_read :
    contentOf [firstChunkExample [] [1, 2], nextChunkExample [3]] = [1, 2, 3] ∧
    firstUpload.outcome = .ok ⟨str "f", str "File uploaded successfully"⟩ ∧
    firstUpload.blobs = [(str "uAr", [1, 2, 3])] ∧
    ObeysReader [1, 2, 3] chunkSize (readAllWithEOF [1, 2, 3]) ∧
    DownloadFile firstUpload.db firstUpload.blobs ⟨none, none, readAllWithEOF, none⟩ ⟨str "f"⟩ =
      ⟨.ok (), [], [str "uAr"]⟩ ∧
    ([] : List (List Byte)).flatten ≠ [1, 2, 3] := by
  refine ⟨by decide, by decide, by decide, by decide, by decide, by decide⟩

/-! ## Properties of `DownloadFile` -/

theorem readLoop_length_le (reader : Reader) (sends : Option Nat) :
    ∀ c ∈ (readLoop reader sends).1, c.length ≤ chunkSize := by
  induction reader generalizing sends with
  | nil => simp [readLoop]
  | cons r rest ih =>
    obtain ⟨data, err⟩ := r
    cases err with
    | some e => cases e <;> simp [readLoop]
    | none =>
      simp only [readLoop]
      by_cases hbig : chunkSize < data.length
      · simp [hbig]
      · by_cases hs : sends = some 0
        · simp [hbig, hs]
        · simp only [hbig, hs, if_false, List.mem_cons]
          rintro c (rfl | hc)
          · omega
          · exact ih _ c hc

/-- The chunks sent are, in order, the blocks of bytes returned by the first
reads of the reader, all of them reads without error. -/
theorem readLoop_prefix (reader : Reader) (sends : Option Nat) :
    (readLoop reader sends).1 <+:
      (reader.takeWhile (fun r => decide (r.err = none))).map (fun r => r.data) := by
  induction reader generalizing sends with
  | nil => simp [readLoop]
  | cons r rest ih =>
    obtain ⟨data, err⟩ := r
    cases err with
    | some e => cases e <;> simp [readLoop]
    | none =>
      simp only [readLoop]
      by_cases hbig : chunkSize < data.length
      · simp [hbig]
      · by_cases hs : sends = some 0
        · simp [hbig, hs]
        · simp only [hbig, hs, if_false, List.takeWhile_cons, decide_True, if_true,
            List.map_cons]
          exact (List.prefix_cons_inj _).mpr (ih _)

theorem takeWhile_flatten_prefix (reader : Reader) :
    ((reader.takeWhile (fun r => decide (r.err = none))).map (fun r => r.data)).flatten <+:
      delivered reader := by
  induction reader with
  | nil => simp [delivered]
  | cons r rest ih =>
    cases hr : r.err with
    | some e => simp [delivered, hr]
    | none =>
      simp only [List.takeWhile_cons, hr, decide_True, if_true, List.map_cons,
        List.flatten_cons, delivered]
      exact (List.prefix_append_right_inj _).mpr ih

/-- A read loop that ends without error over a reader that reports `io.EOF`
only with zero bytes has sent every byte the reader handed out. -/
theorem readLoop_complete (reader : Reader) (sends : Option Nat)
    (hok : (readLoop reader sends).2 = .ok ()) (hclean : cleanEOF reader) :
    (readLoop reader sends).1.flatten = delivered reader := by
  induction reader generalizing sends with
  | nil => simp [readLoop, delivered]
  | cons r rest ih =>
    have hrest : cleanEOF rest := fun x hx => hclean x (List.mem_cons_of_mem _ hx)
    have hhead := hclean r (List.mem_cons_self _ _)
    obtain ⟨data, err⟩ := r
    cases err with
    | some e =>
      cases e with
      | EOF =>
        have hdata : data = [] := hhead rfl
        simp [readLoop, delivered, hdata]
      | other n => simp [readLoop] at hok
    | none =>
      simp only [readLoop] at hok ⊢
      by_cases hbig : chunkSize < data.length
      · simp [hbig] at hok
      · by_cases hs : sends = some 0
        · simp [hbig, hs] at hok
        · simp only [hbig, hs, if_false] at hok ⊢
          simp only [List.flatten_cons, delivered]
          rw [ih _ hok hrest]

/-- What `DownloadFile` does once the latest version is resolved. -/
theorem DownloadFile_of_version {db : Store} {blobs : BlobStore} {env : DownloadEnv}
    {req : FileDownloadRequest} {file : File} {version : FileVersion}
    (hfile : preloadFirst db env.qfault req.FileId = .ok file)
    (hlast : file.Versions.getLast? = some version) :
    DownloadFile db blobs env req =
      match S3Client.DownloadFile blobs env.s3Fault env.reads version.S3Key with
      | .error _ => ⟨.error (.status .Internal), [], [version.S3Key]⟩
      | .ok reader => ⟨(readLoop reader env.sends).2, (readLoop reader env.sends).1,
          [version.S3Key]⟩ := by
  unfold DownloadFile
  rw [hfile]
  simp only [hlast]

/-- The cases of `DownloadFile`: it stops with `NotFound` before any read of
the blob store, or the request to the blob store fails, or it runs the read
loop on the reader of the object stored under the key of the last version. -/
theorem DownloadFile_cases (db : Store) (blobs : BlobStore) (env : DownloadEnv)
    (req : FileDownloadRequest) :
    DownloadFile db blobs env req = ⟨.error (.status .NotFound), [], []⟩ ∨
    (∃ key, DownloadFile db blobs env req = ⟨.error (.status .Internal), [], [key]⟩) ∨
    (∃ key object, blobs.lookup key = some object ∧
      DownloadFile db blobs env req =
        ⟨(readLoop (env.reads object) env.sends).2, (readLoop (env.reads object) env.sends).1,
          [key]⟩) := by
  cases hfile : preloadFirst db env.qfault req.FileId with
  | error e => left; unfold DownloadFile; rw [hfile]
  | ok file =>
    cases hlast : file.Versions.getLast? with
    | none => left; unfold DownloadFile; rw [hfile]; simp only [hlast]
    | some version =>
      right
      rw [DownloadFile_of_version hfile hlast]
      unfold S3Client.DownloadFile
      cases env.s3Fault with
      | some n => left; exact ⟨_, rfl⟩
      | none =>
        cases hobj : blobs.lookup version.S3Key with
        | none => left; exact ⟨_, rfl⟩
        | some object => right; exact ⟨_, object, hobj, rfl⟩

/-- C7 (as the code has it): every chunk `DownloadFile` sends holds at most
1 MiB; the chunks are, in order, the blocks of bytes that successive reads of
the reader returned without error (so a chunk is as short as its read, and
empty when the read returned no bytes); for a reader that obeys the contract
of `io.Reader` their concatenation is a prefix of the stored object; and when
the call completes without error and the reader reports `io.EOF` only with
zero bytes, their concatenation is the whole object. -/
theorem DownloadFile_chunks (db : Store) (blobs : BlobStore) (env : DownloadEnv)
    (req : FileDownloadRequest) :
    (∀ c ∈ (DownloadFile db blobs env req).sent, c.length ≤ chunkSize) ∧
    (∀ key object, (DownloadFile db blobs env req).blobReads = [key] →
      blobs.lookup key = some object →
      (DownloadFile db blobs env req).sent <+:
        ((env.reads object).takeWhile (fun r => decide (r.err = none))).map (fun r => r.data) ∧
      (ObeysReader object chunkSize (env.reads object) →
        (DownloadFile db blobs env req).sent.flatten <+: object) ∧
      ((DownloadFile db blobs env req).outcome = .ok () →
        ObeysReader object chunkSize (env.reads object) → cleanEOF (env.reads object) →
        (DownloadFile db blobs env req).sent.flatten = object)) := by
  rcases DownloadFile_cases db blobs env req with h | ⟨key, h⟩ | ⟨key, object, hobj, h⟩
  · rw [h]
    refine ⟨by simp, ?_⟩
    intro key object hkey
    simp at hkey
  · rw [h]
    refine ⟨by simp, ?_⟩
    intro key' object _ _
    refine ⟨by simp, fun _ => by simp, fun hout => by simp at hout⟩
  · rw [h]
    refine ⟨readLoop_length_le _ _, ?_⟩
    intro key' object' hkey hobj'
    simp only [List.cons.injEq, and_true] at hkey
    subst hkey
    rw [hobj] at hobj'
    cases hobj'
    have hpre := readLoop_prefix (env.reads object) env.sends
    refine ⟨hpre, ?_, ?_⟩
    · intro hobeys
      obtain ⟨t, ht⟩ := hpre
      have h1 : (readLoop (env.reads object) env.sends).1.flatten <+:
          (((env.reads object).takeWhile (fun r => decide (r.err = none))).map
            (fun r => r.data)).flatten := by
        rw [← ht, List.flatten_append]
        exact List.prefix_append _ _
      have h2 := takeWhile_flatten_prefix (env.reads object)
      rw [hobeys.1] at h2
      exact h1.trans h2
    · intro hout hobeys hclean
      have := readLoop_complete (env.reads object) env.sends hout hclean
      simp only at this ⊢
      rw [this, hobeys.1]

/-- C7 on the stored object 1 2 3 of the first upload, read byte by byte: the
hypotheses of the theorem hold and it gives the bound on the chunks and the
whole object. -/
theorem DownloadFile_chunks_witness :
    (∀ c ∈ (DownloadFile firstUpload.db firstUpload.blobs ⟨none, none, readByteWise, none⟩
        ⟨str "f"⟩).sent, c.length ≤ chunkSize) ∧
    (DownloadFile firstUpload.db firstUpload.blobs ⟨none, none, readByteWise, none⟩
        ⟨str "f"⟩).sent.flatten = [1, 2, 3] :=
  ⟨(DownloadFile_chunks firstUpload.db firstUpload.blobs ⟨none, none, readByteWise, none⟩
      ⟨str "f"⟩).1,
   ((DownloadFile_chunks firstUpload.db firstUpload.blobs ⟨none, none, readByteWise, none⟩
      ⟨str "f"⟩).2 (str "uAr") [1, 2, 3] (by decide) (by decide)).2.2
      (by decide) (by decide) (by decide)⟩

/-- C7 fails as stated: over a reader that obeys the contract of `io.Reader`
and returns first no bytes and then one byte per read, `DownloadFile`
completes without error and sends the chunks `[] [1] [2] [3]`: one chunk is
empty and chunks before the last hold one byte, not 1 MiB. -/
theorem DownloadFile_chunks_follow_reads :
    ObeysReader [1, 2, 3] chunkSize (readByteWise [1, 2, 3]) ∧
    DownloadFile firstUpload.db firstUpload.blobs ⟨none, none, readByteWise, none⟩ ⟨str "f"⟩ =
      ⟨.ok (), [[], [1], [2], [3]], [str "uAr"]⟩ ∧
    ¬ FixedSizeChunks [[], [1], [2], [3]] := by
  refine ⟨by decide, by decide, by decide⟩

theorem readLoop_not_NotFound (reader : Reader) (sends : Option Nat) :
    (readLoop reader sends).2 ≠ .error (.status .NotFound) := by
  induction reader generalizing sends with
  | nil => simp [readLoop]
  | cons r rest ih =>
    obtain ⟨data, err⟩ := r
    cases err with
    | some e => cases e <;> simp [readLoop]
    | none =>
      simp only [readLoop]
      by_cases hbig : chunkSize < data.length
      · simp [hbig]
      · by_cases hs : sends = some 0
        · simp [hbig, hs]
        · simp only [hbig, hs, if_false]
          exact ih _

/-- C8 (as the code has it): `DownloadFile` fails with `NotFound` exactly when
the metadata query fails, be it for a database failure or because no file
record has the requested id, or no version row belongs to the requested file;
it then has sent no chunk and made no request to the blob store.  In every
other case it requests the blob under the storage key of the last version of
the file. -/
theorem DownloadFile_NotFound_iff (db : Store) (blobs : BlobStore) (env : DownloadEnv)
    (req : FileDownloadRequest) :
    ((DownloadFile db blobs env req).outcome = .error (.status .NotFound) ↔
      (env.qfault ≠ none ∨ (∀ f ∈ db.files, f.ID ≠ req.FileId) ∨
        (∀ v ∈ db.versions, v.FileID ≠ req.FileId))) ∧
    ((DownloadFile db blobs env req).outcome = .error (.status .NotFound) →
      (DownloadFile db blobs env req).sent = [] ∧
      (DownloadFile db blobs env req).blobReads = []) ∧
    ((DownloadFile db blobs env req).outcome ≠ .error (.status .NotFound) →
      ∃ file version, preloadFirst db none req.FileId = .ok file ∧
        file.Versions = db.versions.filter (fun v => v.FileID = req.FileId) ∧
        file.Versions.getLast? = some version ∧
        (DownloadFile db blobs env req).blobReads = [version.S3Key]) := by
  cases hq : env.qfault with
  | some n =>
    have h : DownloadFile db blobs env req = ⟨.error (.status .NotFound), [], []⟩ := by
      unfold DownloadFile preloadFirst; rw [hq]
    rw [h]
    simp
  | none =>
    cases hfind : db.files.find? (fun f => f.ID = req.FileId) with
    | none =>
      have h : DownloadFile db blobs env req = ⟨.error (.status .NotFound), [], []⟩ := by
        unfold DownloadFile preloadFirst; rw [hq]; simp only [hfind]
      have hall : ∀ f ∈ db.files, f.ID ≠ req.FileId := by
        intro f hf
        have := List.find?_eq_none.mp hfind f hf
        simpa using this
      rw [h]
      simp only [true_iff, ne_eq, and_self, implies_true, true_and, not_true_eq_false,
        false_implies, and_true]
      exact Or.inr (Or.inl hall)
    | some f =>
      have hfid : f.ID = req.FileId := by
        have := List.find?_some hfind
        simpa using this
      have hfmem : f ∈ db.files := List.mem_of_find?_eq_some hfind
      have hpre : preloadFirst db env.qfault req.FileId =
          .ok { f with Versions := db.versions.filter (fun v => v.FileID = req.FileId) } := by
        unfold preloadFirst; rw [hq]; simp only [hfind, hfid]
      have hpre' : preloadFirst db none req.FileId =
          .ok { f with Versions := db.versions.filter (fun v => v.FileID = req.FileId) } := by
        rw [← hq]; exact hpre
      cases hlast : (db.versions.filter (fun v => v.FileID = req.FileId)).getLast? with
      | none =>
        have h : DownloadFile db blobs env req = ⟨.error (.status .NotFound), [], []⟩ := by
          unfold DownloadFile; rw [hpre]; simp only [hlast]
        have hall : ∀ v ∈ db.versions, v.FileID ≠ req.FileId := by
          intro v hv hvid
          have hnil := List.getLast?_eq_none_iff.mp hlast
          have : v ∈ db.versions.filter (fun v => v.FileID = req.FileId) :=
            List.mem_filter.mpr ⟨hv, by simpa using hvid⟩
          rw [hnil] at this
          cases this
        rw [h]
        simp only [true_iff, ne_eq, and_self, implies_true, true_and, not_true_eq_false,
          false_implies, and_true]
        exact Or.inr (Or.inr hall)
      | some version =>
        have h := @DownloadFile_of_version db blobs env req _ _ hpre hlast
        have hvmem : version ∈ db.versions.filter (fun v => v.FileID = req.FileId) :=
          List.mem_of_mem_getLast? hlast
        obtain ⟨hv1, hv2⟩ := List.mem_filter.mp hvmem
        have hne : (DownloadFile db blobs env req).outcome ≠ .error (.status .NotFound) := by
          rw [h]
          cases S3Client.DownloadFile blobs env.s3Fault env.reads version.S3Key with
          | error e => simp
          | ok reader => exact readLoop_not_NotFound _ _
        have hreads : (DownloadFile db blobs env req).blobReads = [version.S3Key] := by
          rw [h]
          cases S3Client.DownloadFile blobs env.s3Fault env.reads version.S3Key <;> rfl
        refine ⟨⟨fun hout => absurd hout hne, ?_⟩, fun hout => absurd hout hne,
          fun _ => ⟨_, version, hpre', rfl, hlast, hreads⟩⟩
        rintro (hc | hc | hc)
        · exact absurd rfl hc
        · exact absurd hfid (hc f hfmem)
        · exact absurd (by simpa using hv2) (hc version hv1)

/-- C8 on the two-version file of the example, with a working database:
the call does not end with `NotFound`, and the theorem gives the request to
the blob store for the key of the last version. -/
theorem DownloadFile_NotFound_iff_witness :
    ∃ file version, preloadFirst scenarioStore none (str "f") = .ok file ∧
      file.Versions = scenarioStore.versions.filter (fun v => v.FileID = str "f") ∧
      file.Versions.getLast? = some version ∧
      (DownloadFile scenarioStore [] ⟨none, none, readByteWise, none⟩ ⟨str "f"⟩).blobReads =
        [version.S3Key] :=
  (DownloadFile_NotFound_iff scenarioStore [] ⟨none, none, readByteWise, none⟩ ⟨str "f"⟩).2.2
    (by decide)

/-- C8 fails as stated: the store holds the file `f` with two versions, the
metadata query fails because of the database, and `DownloadFile` answers
`NotFound`. -/
theorem DownloadFile_NotFound_on_query_failure :
    (∃ file ∈ scenarioStore.files, file.ID = str "f") ∧
    (scenarioStore.versions.filter (fun v => v.FileID = str "f")).length = 2 ∧
    DownloadFile scenarioStore [] ⟨some 7, none, readByteWise, none⟩ ⟨str "f"⟩ =
      ⟨.error (.status .NotFound), [], []⟩ := by
  refine ⟨by decide, by decide, by decide⟩

/-! ## Properties of `WatchFileChanges` -/

/-- One run of the callback on a message of another device: the message is
given to `handleFileChange`, and at most one event, built from the message, is
sent. -/
theorem watchCallback_other_device (req : WatchRequest) (st : Session)
    (outside : ChangeEnv × Bool) (msg : FileChangeMessage) (h : msg.DeviceID ≠ req.DeviceId) :
    ∃ es, (watchCallback req st outside msg).1.applied = st.applied ++ [msg] ∧
      (watchCallback req st outside msg).1.sent = st.sent ++ es ∧
      ∀ e ∈ es, e.DeviceId = msg.DeviceID ∧ e.FileId = msg.FileID ∧ e.FilePath = msg.FilePath := by
  unfold watchCallback
  rw [if_neg h]
  cases handleFileChange st.db outside.1 msg with
  | error e => exact ⟨[], rfl, by simp, by simp⟩
  | ok db' =>
    cases outside.2 with
    | true => exact ⟨[], rfl, by simp, by simp⟩
    | false =>
      refine ⟨[_], rfl, rfl, ?_⟩
      intro e he
      simp only [List.mem_singleton] at he
      subst he
      exact ⟨rfl, rfl, rfl⟩

theorem WatchFileChanges_trace (req : WatchRequest)
    (deliveries : List (Delivery (ChangeEnv × Bool))) (st : Session) :
    ∃ ms es,
      (WatchFileChanges req deliveries st).1.applied = st.applied ++ ms ∧
      (WatchFileChanges req deliveries st).1.sent = st.sent ++ es ∧
      (∀ m ∈ ms, m.DeviceID ≠ req.DeviceId ∧ m.UserID = req.UserId ∧
        ∃ outside, Delivery.message m outside ∈ deliveries) ∧
      (∀ e ∈ es, e.DeviceId ≠ req.DeviceId ∧
        ∃ m ∈ ms, e.DeviceId = m.DeviceID ∧ e.FileId = m.FileID ∧ e.FilePath = m.FilePath) := by
  induction deliveries generalizing st with
  | nil => exact ⟨[], [], by simp [WatchFileChanges, SubscribeToFileChanges],
      by simp [WatchFileChanges, SubscribeToFileChanges], by simp, by simp⟩
  | cons d rest ih =>
    cases d with
    | readError => exact ⟨[], [], by simp [WatchFileChanges, SubscribeToFileChanges],
        by simp [WatchFileChanges, SubscribeToFileChanges], by simp, by simp⟩
    | badPayload => exact ⟨[], [], by simp [WatchFileChanges, SubscribeToFileChanges],
        by simp [WatchFileChanges, SubscribeToFileChanges], by simp, by simp⟩
    | message m outside =>
      have hweaken : ∀ {ms : List FileChangeMessage},
          (∀ x ∈ ms, x.DeviceID ≠ req.DeviceId ∧ x.UserID = req.UserId ∧
            ∃ o, Delivery.message x o ∈ rest) →
          ∀ x ∈ ms, x.DeviceID ≠ req.DeviceId ∧ x.UserID = req.UserId ∧
            ∃ o, Delivery.message x o ∈ Delivery.message m outside :: rest := by
        intro ms hms x hx
        obtain ⟨h1, h2, o, ho⟩ := hms x hx
        exact ⟨h1, h2, o, List.mem_cons_of_mem _ ho⟩
      by_cases hu : m.UserID = req.UserId
      · by_cases hd : m.DeviceID = req.DeviceId
        · have hstep : WatchFileChanges req (Delivery.message m outside :: rest) st =
              WatchFileChanges req rest st := by
            simp [WatchFileChanges, SubscribeToFileChanges, hu, watchCallback, hd]
          rw [hstep]
          obtain ⟨ms, es, h1, h2, h3, h4⟩ := ih st
          exact ⟨ms, es, h1, h2, hweaken h3, h4⟩
        · obtain ⟨es0, ha, hs, he⟩ := watchCallback_other_device req st outside m hd
          cases hcb : watchCallback req st outside m with
          | mk st' fin =>
            rw [hcb] at ha hs
            simp only at ha hs
            cases fin with
            | fatal =>
              have hstep : WatchFileChanges req (Delivery.message m outside :: rest) st =
                  (st', .fatal) := by
                simp [WatchFileChanges, SubscribeToFileChanges, hu, hcb]
              rw [hstep]
              refine ⟨[m], es0, ha, hs, ?_, ?_⟩
              · intro x hx
                simp only [List.mem_singleton] at hx
                subst hx
                exact ⟨hd, hu, outside, List.mem_cons_self _ _⟩
              · intro e hmem
                obtain ⟨e1, e2, e3⟩ := he e hmem
                exact ⟨by rw [e1]; exact hd, m, List.mem_singleton_self _, e1, e2, e3⟩
            | returned =>
              have hstep : WatchFileChanges req (Delivery.message m outside :: rest) st =
                  WatchFileChanges req rest st' := by
                simp [WatchFileChanges, SubscribeToFileChanges, hu, hcb]
              rw [hstep]
              obtain ⟨ms, es, h1, h2, h3, h4⟩ := ih st'
              refine ⟨m :: ms, es0 ++ es, ?_, ?_, ?_, ?_⟩
              · rw [h1, ha]; simp
              · rw [h2, hs]; simp
              · intro x hx
                rcases List.mem_cons.mp hx with rfl | hx
                · exact ⟨hd, hu, outside, List.mem_cons_self _ _⟩
                · exact hweaken h3 x hx
              · intro e hmem
                rcases List.mem_append.mp hmem with hmem | hmem
                · obtain ⟨e1, e2, e3⟩ := he e hmem
                  exact ⟨by rw [e1]; exact hd, m, List.mem_cons_self _ _, e1, e2, e3⟩
                · obtain ⟨e1, x, hx, e2⟩ := h4 e hmem
                  exact ⟨e1, x, List.mem_cons_of_mem _ hx, e2⟩
      · have hstep : WatchFileChanges req (Delivery.message m outside :: rest) st =
            WatchFileChanges req rest st := by
          simp [WatchFileChanges, SubscribeToFileChanges, hu]
        rw [hstep]
        obtain ⟨ms, es, h1, h2, h3, h4⟩ := ih st
        exact ⟨ms, es, h1, h2, hweaken h3, h4⟩

theorem WatchFileChanges_filter (req : WatchRequest)
    (deliveries : List (Delivery (ChangeEnv × Bool))) (st : Session) :
    WatchFileChanges req deliveries st =
      WatchFileChanges req (deliveries.filter (passes req)) st := by
  induction deliveries generalizing st with
  | nil => rfl
  | cons d rest ih =>
    cases d with
    | readError => simp [WatchFileChanges, SubscribeToFileChanges, passes]
    | badPayload => simp [WatchFileChanges, SubscribeToFileChanges, passes]
    | message m outside =>
      by_cases hu : m.UserID = req.UserId
      · by_cases hd : m.DeviceID = req.DeviceId
        · have hstep : WatchFileChanges req (Delivery.message m outside :: rest) st =
              WatchFileChanges req rest st := by
            simp [WatchFileChanges, SubscribeToFileChanges, hu, watchCallback, hd]
          rw [hstep, ih st]
          simp [passes, hu, hd]
        · have hkeep : (Delivery.message m outside :: rest).filter (passes req) =
              Delivery.message m outside :: rest.filter (passes req) := by
            simp [passes, hu, hd]
          rw [hkeep]
          cases hcb : watchCallback req st outside m with
          | mk st' fin =>
            cases fin with
            | fatal => simp [WatchFileChanges, SubscribeToFileChanges, hu, hcb]
            | returned =>
              have := ih st'
              simp only [WatchFileChanges] at this
              simp [WatchFileChanges, SubscribeToFileChanges, hu, hcb, this]
      · have hstep : WatchFileChanges req (Delivery.message m outside :: rest) st =
            WatchFileChanges req rest st := by
          simp [WatchFileChanges, SubscribeToFileChanges, hu]
        rw [hstep, ih st]
        simp [passes, hu]

/-- C9: in a watch session of user `U` on device `D`, whatever the change bus
delivers, every message given to `handleFileChange` and every event written to
the outbound stream comes from a delivered message whose device is not `D` and
whose user is `U`; the deliveries of messages from `D` (and of other users)
can be removed without changing the store, the stream or the way the session
ends. -/
theorem WatchFileChanges_suppresses_echo (req : WatchRequest)
    (deliveries : List (Delivery (ChangeEnv × Bool))) (st : Session) :
    WatchFileChanges req deliveries st =
      WatchFileChanges req (deliveries.filter (passes req)) st ∧
    ∃ ms es,
      (WatchFileChanges req deliveries st).1.applied = st.applied ++ ms ∧
      (WatchFileChanges req deliveries st).1.sent = st.sent ++ es ∧
      (∀ m ∈ ms, m.DeviceID ≠ req.DeviceId ∧ m.UserID = req.UserId ∧
        ∃ outside, Delivery.message m outside ∈ deliveries) ∧
      (∀ e ∈ es, e.DeviceId ≠ req.DeviceId ∧
        ∃ m ∈ ms, e.DeviceId = m.DeviceID ∧ e.FileId = m.FileID ∧ e.FilePath = m.FilePath) :=
  ⟨WatchFileChanges_filter req deliveries st, WatchFileChanges_trace req deliveries st⟩

/-- C9 on the example session of user `u` on device `A`: of the echo from `A`
and the change from `B` only the latter is applied and forwarded. -/
theorem WatchFileChanges_suppresses_echo_witness :
    (WatchFileChanges watchRequestExample deliveriesExample ⟨⟨[], []⟩, [], []⟩ =
      WatchFileChanges watchRequestExample
        (deliveriesExample.filter (passes watchRequestExample)) ⟨⟨[], []⟩, [], []⟩) ∧
    (WatchFileChanges watchRequestExample deliveriesExample ⟨⟨[], []⟩, [], []⟩).1.applied =
      [changeExample (str "f2") (str "B")] ∧
    (WatchFileChanges watchRequestExample deliveriesExample ⟨⟨[], []⟩, [], []⟩).1.sent.map
      (fun e => (e.FileId, e.DeviceId)) = [(str "f2", str "B")] :=
  ⟨(WatchFileChanges_suppresses_echo watchRequestExample deliveriesExample ⟨⟨[], []⟩, [], []⟩).1,
    by decide, by decide⟩

/-! ## Properties of the filesystem watcher -/

theorem Base_ne_nil (path : GoString) : Base path ≠ [] := by
  unfold Base
  split
  · simp
  · dsimp only
    split
    · simp
    · assumption

theorem handle_ne_fault (fw : FileWatcher) (uuid : GoString) (now : Nat) (publishFails : Bool)
    (event : Event) : fw.handle uuid now publishFails event ≠ .fault := by
  unfold FileWatcher.handle
  cases hb : Base event.Name with
  | nil => exact absurd hb (Base_ne_nil _)
  | cons first tail =>
    dsimp only
    split
    · simp
    · cases classify event.Op with
      | none => simp
      | some changeType => cases publishFails <;> simp

theorem handle_hidden (fw : FileWatcher) (uuid : GoString) (now : Nat) (publishFails : Bool)
    (event : Event) (h : (Base event.Name).head? = some 46) :
    fw.handle uuid now publishFails event = .skipped := by
  unfold FileWatcher.handle
  cases hb : Base event.Name with
  | nil => rw [hb] at h; simp at h
  | cons first tail =>
    rw [hb] at h
    simp only [List.head?_cons, Option.some.injEq] at h
    simp [h]

theorem handle_published (fw : FileWatcher) (uuid : GoString) (now : Nat) (publishFails : Bool)
    (event : Event) (msg : FileChangeMessage)
    (h : fw.handle uuid now publishFails event = .published msg) :
    msg.FilePath = event.Name ∧ (Base event.Name).head? ≠ some 46 := by
  have hhid : (Base event.Name).head? ≠ some 46 := by
    intro hh
    rw [handle_hidden fw uuid now publishFails event hh] at h
    cases h
  refine ⟨?_, hhid⟩
  unfold FileWatcher.handle at h
  cases hb : Base event.Name with
  | nil => exact absurd hb (Base_ne_nil _)
  | cons first tail =>
    rw [hb] at h
    dsimp only at h
    split at h
    · cases h
    · cases hc : classify event.Op with
      | none => rw [hc] at h; cases h
      | some changeType =>
        rw [hc] at h
        cases publishFails with
        | true => simp at h
        | false =>
          simp only [Bool.false_eq_true, if_false, Handled.published.injEq] at h
          rw [← h]

theorem Start_published (fw : FileWatcher) (received : List Received) :
    (fw.Start received).2 ≠ .fault ∧
    ∀ m ∈ (fw.Start received).1, (Base m.FilePath).head? ≠ some 46 := by
  induction received with
  | nil => simp [FileWatcher.Start]
  | cons r rest ih =>
    cases r with
    | done => simp [FileWatcher.Start]
    | eventsClosed => simp [FileWatcher.Start]
    | errorsClosed => simp [FileWatcher.Start]
    | error => simp [FileWatcher.Start]
    | event e uuid now publishFails =>
      simp only [FileWatcher.Start]
      cases hh : fw.handle uuid now publishFails e with
      | skipped => exact ih
      | fatal => simp
      | fault => exact absurd hh (handle_ne_fault fw uuid now publishFails e)
      | published msg =>
        obtain ⟨hpath, hhid⟩ := handle_published fw uuid now publishFails e msg hh
        refine ⟨ih.1, ?_⟩
        intro m hm
        rcases List.mem_cons.mp hm with rfl | hm
        · rw [hpath]; exact hhid
        · exact ih.2 m hm

/-- C10: the base name the watcher inspects is never empty, so reading its
first byte never faults, for any path, the empty path included; an event whose
base name starts with `.` is skipped whatever its operation bits, and no
message that the watcher loop publishes comes from a path whose base name
starts with `.`. -/
theorem hidden_events_publish_nothing (fw : FileWatcher) :
    (∀ path, Base path ≠ []) ∧
    (∀ uuid now publishFails event,
      fw.handle uuid now publishFails event ≠ .fault ∧
      ((Base event.Name).head? = some 46 → fw.handle uuid now publishFails event = .skipped)) ∧
    (∀ received, (fw.Start received).2 ≠ .fault ∧
      ∀ m ∈ (fw.Start received).1, (Base m.FilePath).head? ≠ some 46) :=
  ⟨Base_ne_nil, fun uuid now publishFails event =>
    ⟨handle_ne_fault fw uuid now publishFails event, handle_hidden fw uuid now publishFails event⟩,
    Start_published fw⟩

/-- C10 on the hidden file `/d/.git`, for each of the four kinds of event, and
on the empty path, whose base name is `.`: the hypothesis holds and the event
is skipped. -/
theorem hidden_events_publish_nothing_witness :
    (Base (str "/d/.git")).head? = some 46 ∧
    watcherExample.handle (str "x") 0 false ⟨str "/d/.git", Create⟩ = .skipped ∧
    watcherExample.handle (str "x") 0 false ⟨str "/d/.git", Write⟩ = .skipped ∧
    watcherExample.handle (str "x") 0 false ⟨str "/d/.git", Remove⟩ = .skipped ∧
    watcherExample.handle (str "x") 0 false ⟨str "/d/.git", Rename⟩ = .skipped ∧
    watcherExample.handle (str "x") 0 false ⟨[], Create⟩ = .skipped :=
  ⟨by decide,
   ((hidden_events_publish_nothing watcherExample).2.1 _ _ _ _).2 (by decide),
   ((hidden_events_publish_nothing watcherExample).2.1 _ _ _ _).2 (by decide),
   ((hidden_events_publish_nothing watcherExample).2.1 _ _ _ _).2 (by decide),
   ((hidden_events_publish_nothing watcherExample).2.1 _ _ _ _).2 (by decide),
   ((hidden_events_publish_nothing watcherExample).2.1 _ _ _ _).2 (by decide)⟩

theorem handle_visible (fw : FileWatcher) (uuid : GoString) (now : Nat) (publishFails : Bool)
    (event : Event) (hvis : (Base event.Name).head? ≠ some 46) :
    fw.handle uuid now publishFails event =
      match classify event.Op with
      | none => .skipped
      | some changeType =>
        if publishFails then .fatal
        else .published
          { FileID := uuid, FilePath := event.Name, ChangeType := changeType, Timestamp := now,
            DeviceID := fw.deviceID, VersionID := [], UserID := fw.userID } := by
  unfold FileWatcher.handle
  cases hb : Base event.Name with
  | nil => exact absurd hb (Base_ne_nil _)
  | cons first tail =>
    rw [hb] at hvis
    have hfirst : first ≠ 46 := fun h => hvis (by simp [h])
    simp only [hfirst, if_false]

theorem classify_none (op : Nat) (hc : op &&& Create = 0) (hw : op &&& Write = 0)
    (hr : op &&& Remove = 0) (hn : op &&& Rename = 0) : classify op = none := by
  unfold classify
  rw [hc, hw, hr, hn]
  simp [Create, Write, Remove, Rename]

/-- C11: for an event whose base name is not hidden and whose operation is
exactly create, write, remove or rename, the watcher hands one message to the
change bus, with change type `CREATED`, `MODIFIED`, `DELETED` or `RENAMED`
respectively, the path of the event, a fresh id, the current time and the user
and device of the session; the loop publishes it and goes on with the next
event (when the bus refuses the message, `log.Fatalf` ends the process).  For
an operation with none of the four bits set, nothing is published and the loop
goes on. -/
theorem watcher_classifies (fw : FileWatcher) (uuid : GoString) (now : Nat) (event : Event)
    (hvis : (Base event.Name).head? ≠ some 46) :
    (∀ kind changeType,
      (kind, changeType) ∈ [(Create, str "CREATED"), (Write, str "MODIFIED"),
        (Remove, str "DELETED"), (Rename, str "RENAMED")] →
      event.Op = kind →
      fw.handle uuid now false event = .published
        { FileID := uuid, FilePath := event.Name, ChangeType := changeType, Timestamp := now,
          DeviceID := fw.deviceID, VersionID := [], UserID := fw.userID } ∧
      fw.handle uuid now true event = .fatal ∧
      ∀ rest, fw.Start (.event event uuid now false :: rest) =
        ({ FileID := uuid, FilePath := event.Name, ChangeType := changeType, Timestamp := now,
           DeviceID := fw.deviceID, VersionID := [], UserID := fw.userID } :: (fw.Start rest).1,
         (fw.Start rest).2)) ∧
    (event.Op &&& Create = 0 → event.Op &&& Write = 0 → event.Op &&& Remove = 0 →
      event.Op &&& Rename = 0 →
      ∀ publishFails, fw.handle uuid now publishFails event = .skipped ∧
        ∀ rest, fw.Start (.event event uuid now publishFails :: rest) = fw.Start rest) := by
  constructor
  · intro kind changeType hmem hop
    have hclass : classify event.Op = some changeType := by
      simp only [List.mem_cons, Prod.mk.injEq, List.mem_singleton, List.not_mem_nil,
        or_false] at hmem
      rcases hmem with ⟨rfl, rfl⟩ | ⟨rfl, rfl⟩ | ⟨rfl, rfl⟩ | ⟨rfl, rfl⟩ <;> rw [hop] <;> decide
    have hpub := handle_visible fw uuid now false event hvis
    have hfat := handle_visible fw uuid now true event hvis
    rw [hclass] at hpub hfat
    simp only [Bool.false_eq_true, if_false] at hpub
    simp only [if_true] at hfat
    refine ⟨hpub, hfat, ?_⟩
    intro rest
    simp only [FileWatcher.Start, hpub]
  · intro hc hw hr hn publishFails
    have hskip := handle_visible fw uuid now publishFails event hvis
    rw [classify_none _ hc hw hr hn] at hskip
    refine ⟨hskip, ?_⟩
    intro rest
    simp only [FileWatcher.Start, hskip]

/-- C11 on the visible file `/d/a.txt`: a write event yields the message
`MODIFIED` of user `u` and device `A`, and a permission change yields
nothing. -/
theorem watcher_classifies_witness :
    watcherExample.handle (str "x") 7 false ⟨str "/d/a.txt", Write⟩ = .published
      { FileID := str "x", FilePath := str "/d/a.txt", ChangeType := str "MODIFIED",
        Timestamp := 7, DeviceID := str "A", VersionID := [], UserID := str "u" } ∧
    watcherExample.handle (str "x") 7 false ⟨str "/d/a.txt", Chmod⟩ = .skipped :=
  ⟨((watcher_classifies watcherExample (str "x") 7 ⟨str "/d/a.txt", Write⟩ (by decide)).1
      Write (str "MODIFIED") (by decide) rfl).1,
   ((watcher_classifies watcherExample (str "x") 7 ⟨str "/d/a.txt", Chmod⟩ (by decide)).2
      (by decide) (by decide) (by decide) (by decide) false).1⟩

/-! ## Properties of `ResolveConflict` -/

theorem txCreateVersion_checks {db db1 : Store} {fault : Option Nat} {fresh : GoString}
    {version : FileVersion} (h : txCreateVersion db fault fresh version = .ok db1) :
    (∀ r ∈ db.versions, r.ID ≠ (version.BeforeCreate fresh).ID) ∧
    (∃ f ∈ db.files, f.ID = (version.BeforeCreate fresh).FileID) := by
  unfold txCreateVersion at h
  dsimp only at h
  split at h
  · cases h
  · split at h
    · cases h
    · rename_i hdup
      split at h
      · rename_i hfk
        constructor
        · intro r hr hid
          exact hdup (List.any_eq_true.mpr ⟨r, hr, by simpa using hid⟩)
        · obtain ⟨f, hf, hfid⟩ := List.any_eq_true.mp hfk
          exact ⟨f, hf, by simpa using hfid⟩
      · cases h

theorem BeforeCreate_fields (fresh : GoString) (v : FileVersion) :
    (v.BeforeCreate fresh).FileID = v.FileID ∧ (v.BeforeCreate fresh).DeviceID = v.DeviceID ∧
    (v.BeforeCreate fresh).Hash = v.Hash ∧ (v.BeforeCreate fresh).VersionNum = v.VersionNum := by
  unfold FileVersion.BeforeCreate
  split <;> exact ⟨rfl, rfl, rfl, rfl⟩

/-- Every call of `ResolveConflict` fails with `Internal` and leaves the store
as it was: the update of `resolved_by` is refused, and the transaction rolls
back the version row it had created. -/
theorem ResolveConflict_fails (db : Store) (env : ResolveEnv) (req : ConflictResolutionRequest) :
    ResolveConflict db env req = (.error (.status .Internal), db) := by
  have hupd : ∀ tx ids newID, ∃ e, txUpdateResolvedBy tx env.updateFault ids newID = .error e := by
    intro tx ids newID
    unfold txUpdateResolvedBy
    cases env.updateFault with
    | some n => exact ⟨_, rfl⟩
    | none => exact ⟨_, rfl⟩
  unfold ResolveConflict
  dsimp only
  split
  · rfl
  · rename_i db' htx
    exfalso
    obtain ⟨hbody, -⟩ := Transaction_ok htx
    split at hbody
    · cases hbody
    · rename_i tx1 hcreate
      obtain ⟨e, he⟩ := hupd tx1 req.LosingVersionIds
        ((resolvingVersion env req).BeforeCreate env.hookUuid).ID
      rw [he] at hbody
      cases hbody

/-- What `tx.Save(file)` does for a file with a non-empty id: the row of that
id is `file` afterwards, and every other row is as before. -/
theorem txSaveFile_upsert {db dbs : Store} {fault : Option Nat} {fresh : GoString} {file : File}
    (hid : file.ID ≠ []) (h : txSaveFile db fault fresh file = .ok dbs) :
    dbs.versions = db.versions ∧ file ∈ dbs.files ∧
    (∀ f ∈ dbs.files, f.ID = file.ID → f = file) ∧
    (∀ f, f.ID ≠ file.ID → (f ∈ dbs.files ↔ f ∈ db.files)) ∧
    (∀ f ∈ db.files, ∃ g ∈ dbs.files, g.ID = f.ID) := by
  refine ⟨txSaveFile_versions h, ?_⟩
  have hmem := txSaveFile_mem h
  have hbc : file.BeforeCreate fresh = file := by simp [File.BeforeCreate, hid]
  rw [hbc] at hmem
  refine ⟨hmem, ?_⟩
  unfold txSaveFile at h
  split at h
  · cases h
  · rw [if_neg hid] at h
    split at h
    · cases h
      simp only [List.mem_map]
      refine ⟨?_, ?_, ?_⟩
      · rintro f ⟨r, -, rfl⟩ hf
        by_cases hr : r.ID = file.ID
        · simp [hr]
        · simp only [hr, if_false] at hf
      · intro f hf
        constructor
        · rintro ⟨r, hr, rfl⟩
          by_cases hrid : r.ID = file.ID
          · simp only [hrid, if_true] at hf
            exact absurd rfl hf
          · simpa [hrid] using hr
        · intro hfm
          exact ⟨f, hfm, by simp [hf]⟩
      · intro f hf
        by_cases hfid : f.ID = file.ID
        · exact ⟨file, ⟨f, hf, by simp [hfid]⟩, hfid.symm⟩
        · exact ⟨f, ⟨f, hf, by simp [hfid]⟩, rfl⟩
    · rename_i hany
      cases h
      have hnone : ∀ r ∈ db.files, r.ID ≠ file.ID := by
        intro r hr hrid
        exact hany (List.any_eq_true.mpr ⟨r, hr, by simpa using hrid⟩)
      simp only [List.mem_append, List.mem_singleton]
      refine ⟨?_, ?_, ?_⟩
      · rintro f (hf | rfl) hfid
        · exact absurd hfid (hnone f hf)
        · rfl
      · intro f hf
        constructor
        · rintro (hfm | rfl)
          · exact hfm
          · exact absurd rfl hf
        · intro hfm; exact Or.inl hfm
      · intro f hf
        exact ⟨f, Or.inl hf, rfl⟩

/-- The file row that `handleFileChange` saves. -/
theorem handleFileChange_ok {db db' : Store} {env : ChangeEnv} {msg : FileChangeMessage}
    (h : handleFileChange db env msg = .ok db') :
    ∃ dbs,
      txSaveFile db env.saveFault env.fileHookUuid
        { ID := msg.FileID, Name := [], Path := msg.FilePath, Size := 0, ContentType := [],
          OwnerID := msg.UserID, Versions := [] } = .ok dbs ∧
      txCreateVersion dbs env.createFault env.versionHookUuid
        { ID := env.versionUuid, FileID := msg.FileID, VersionNum := 0, Hash := [], Size := 0,
          S3Key := [], DeviceID := msg.DeviceID } = .ok db' := by
  unfold handleFileChange at h
  obtain ⟨hbody, -⟩ := Transaction_ok h
  dsimp only at hbody
  split at hbody
  · cases hbody
  · rename_i dbs hsave
    split at hbody
    · cases hbody
    · rename_i tx2 hcreate
      cases hbody
      exact ⟨dbs, hsave, hcreate⟩

/-- C14 (as the code has it): a successful `handleFileChange` for a message
with a non-empty file id leaves the store with a file row of that id; the row
carries the path and the owner of the message and an empty name, size 0 and an
empty content type, whatever the row held before; every other file row is as
before; exactly one version row is appended, with a new id, for the file of
the message, with the device of the message as origin and an empty content
hash, and the version rows that existed are unchanged. -/
theorem handleFileChange_effect (db db' : Store) (env : ChangeEnv) (msg : FileChangeMessage)
    (hid : msg.FileID ≠ []) (h : handleFileChange db env msg = .ok db') :
    (∃ f ∈ db'.files, f.ID = msg.FileID) ∧
    (∀ f ∈ db'.files, f.ID = msg.FileID →
      f.Path = msg.FilePath ∧ f.OwnerID = msg.UserID ∧
      f.Name = [] ∧ f.Size = 0 ∧ f.ContentType = []) ∧
    (∀ f, f.ID ≠ msg.FileID → (f ∈ db'.files ↔ f ∈ db.files)) ∧
    ∃ v, db'.versions = db.versions ++ [v] ∧ (∀ r ∈ db.versions, r.ID ≠ v.ID) ∧
      v.FileID = msg.FileID ∧ v.DeviceID = msg.DeviceID ∧ v.Hash = [] := by
  obtain ⟨dbs, hsave, hcreate⟩ := handleFileChange_ok h
  have hupsert := fun hne => txSaveFile_upsert hne hsave
  obtain ⟨hvers, hmem, hsame, hother, -⟩ := hupsert hid
  obtain ⟨hdb, -⟩ := txCreateVersion_ok hcreate
  obtain ⟨hdup, -⟩ := txCreateVersion_checks hcreate
  have hfields := BeforeCreate_fields env.versionHookUuid
    { ID := env.versionUuid, FileID := msg.FileID, VersionNum := 0, Hash := [], Size := 0,
      S3Key := [], DeviceID := msg.DeviceID }
  subst hdb
  refine ⟨⟨_, hmem, rfl⟩, ?_, hother, ?_⟩
  · intro f hf hfid
    have := hsame f hf hfid
    subst this
    exact ⟨rfl, rfl, rfl, rfl, rfl⟩
  · refine ⟨_, by simp only [hvers], ?_, hfields.1, hfields.2.1, hfields.2.2.1⟩
    intro r hr
    exact hdup r (by rw [hvers]; exact hr)

/-- C14 on the file `f` of the scenario and a change message of device `B`:
the call succeeds and the theorem applies. -/
theorem handleFileChange_effect_witness :
    (∃ f ∈ afterChange.files, f.ID = str "f") ∧
    (∀ f ∈ afterChange.files, f.ID = str "f" →
      f.Path = str "/d/a.txt" ∧ f.OwnerID = str "u" ∧
      f.Name = [] ∧ f.Size = 0 ∧ f.ContentType = []) ∧
    (∀ f, f.ID ≠ str "f" → (f ∈ afterChange.files ↔ f ∈ scenarioStore.files)) ∧
    ∃ v, afterChange.versions = scenarioStore.versions ++ [v] ∧
      (∀ r ∈ scenarioStore.versions, r.ID ≠ v.ID) ∧
      v.FileID = str "f" ∧ v.DeviceID = str "B" ∧ v.Hash = [] :=
  handleFileChange_effect scenarioStore afterChange (changeEnvExample (str "w1"))
    (changeExample (str "f") (str "B")) (by decide) (by decide)

/-- C14 fails as stated: the file `f` has the name `report.txt`, size 2 and
content type `text/plain`; after a successful `handleFileChange` for `f` its
name and content type are empty and its size is 0. -/
theorem handleFileChange_overwrites_file :
    scenarioStore.files.map (fun f => (f.ID, f.Name, f.Size, f.ContentType)) =
      [(str "f", str "report.txt", 2, str "text/plain")] ∧
    handleFileChange scenarioStore (changeEnvExample (str "w1"))
      (changeExample (str "f") (str "B")) = .ok afterChange ∧
    afterChange.files.map (fun f => (f.ID, f.Name, f.Size, f.ContentType)) =
      [(str "f", [], 0, [])] := by
  refine ⟨by decide, by decide, by decide⟩

/-! ## Consistency of the metadata store -/

theorem txSaveFile_create {db dbs : Store} {fault : Option Nat} {fresh : GoString} {file : File}
    (hid : file.ID = []) (h : txSaveFile db fault fresh file = .ok dbs) :
    dbs = { db with files := db.files ++ [{ file with ID := fresh }] } := by
  unfold txSaveFile at h
  split at h
  · cases h
  · rw [if_pos hid] at h
    dsimp only at h
    split at h
    · cases h
    · cases h
      simp [File.BeforeCreate, hid]

/-- A transaction that saves a file and creates a version for the id the file
was saved under keeps the store consistent and the file ids non-empty. -/
theorem save_create_consistent {db dbs db2 : Store} {saveFault createFault : Option Nat}
    {hook versionHook : GoString} {file : File} {version : FileVersion}
    (hinv : Consistent db) (hids : ∀ f ∈ db.files, f.ID ≠ []) (hhook : hook ≠ [])
    (hfid : version.FileID = file.ID)
    (hsave : txSaveFile db saveFault hook file = .ok dbs)
    (hcreate : txCreateVersion dbs createFault versionHook version = .ok db2) :
    Consistent db2 ∧ ∀ f ∈ db2.files, f.ID ≠ [] := by
  obtain ⟨hdb2, -⟩ := txCreateVersion_ok hcreate
  obtain ⟨-, f0, hf0, hf0id⟩ := txCreateVersion_checks hcreate
  rw [(BeforeCreate_fields versionHook version).1, hfid] at hf0id
  by_cases hid : file.ID = []
  · exfalso
    have hdbs := txSaveFile_create hid hsave
    rw [hdbs] at hf0
    simp only [List.mem_append, List.mem_singleton] at hf0
    rcases hf0 with hf0 | rfl
    · exact hids f0 hf0 (hf0id.trans hid)
    · exact hhook (hf0id.trans hid)
  · obtain ⟨hvers, hmem, -, hother, hkeep⟩ := txSaveFile_upsert hid hsave
    subst hdb2
    refine ⟨⟨?_, ?_⟩, ?_⟩
    · intro f hf
      by_cases hfeq : f.ID = file.ID
      · exact ⟨version.BeforeCreate versionHook, by simp,
          by rw [(BeforeCreate_fields versionHook version).1, hfid, hfeq]⟩
      · obtain ⟨v, hv, hvid⟩ := hinv.1 f ((hother f hfeq).mp hf)
        exact ⟨v, by simp [hvers, hv], hvid⟩
    · intro v hv
      simp only [List.mem_append, List.mem_singleton] at hv
      rcases hv with hv | rfl
      · rw [hvers] at hv
        obtain ⟨f, hf, hfv⟩ := hinv.2 v hv
        obtain ⟨g, hg, hgid⟩ := hkeep f hf
        exact ⟨g, hg, hgid.trans hfv⟩
      · exact ⟨file, hmem, by rw [(BeforeCreate_fields versionHook version).1, hfid]⟩
    · intro f hf
      by_cases hfeq : f.ID = file.ID
      · rw [hfeq]; exact hid
      · exact hids f ((hother f hfeq).mp hf)

theorem uploadTransaction_steps {db db1 : Store} {env : UploadEnv} {file : File}
    {version : FileVersion} (h : uploadTransaction db env file version = .ok db1) :
    ∃ dbs, txSaveFile db env.saveFault env.fileHookUuid file = .ok dbs ∧
      txCreateVersion dbs env.createFault env.versionHookUuid version = .ok db1 := by
  obtain ⟨hbody, -⟩ := Transaction_ok h
  split at hbody
  · cases hbody
  · rename_i dbs hsave
    split at hbody
    · cases hbody
    · rename_i tx2 hcreate
      cases hbody
      exact ⟨dbs, hsave, hcreate⟩

/-- An upload whose metadata transaction did not commit leaves the metadata
store as it was. -/
theorem UploadFile_not_committed {db : Store} {blobs : BlobStore} {env : UploadEnv}
    {stream : List Recv} (h : (UploadFile db blobs env stream).committed = false) :
    (UploadFile db blobs env stream).db = db := by
  unfold UploadFile at h ⊢
  cases hrecv : receive stream with
  | none => simp
  | some p =>
    obtain ⟨firstChunk, st⟩ := p
    simp only [hrecv] at h ⊢
    cases hs3 : env.s3Fault with
    | some n => simp [S3Client.UploadFile]
    | none =>
      simp only [S3Client.UploadFile, hs3] at h ⊢
      cases htx : uploadTransaction db env (uploadFile env firstChunk st)
          (uploadVersion env firstChunk st) with
      | error e => simp
      | ok db1 =>
        simp only [htx] at h
        cases hsend : env.sendFault <;> simp [hsend] at h

theorem step_consistent (s : System) (c : Call) (huuid : c.uuidsNonEmpty)
    (hinv : Consistent s.db) (hids : ∀ f ∈ s.db.files, f.ID ≠ []) :
    Consistent (step s c).db ∧ ∀ f ∈ (step s c).db.files, f.ID ≠ [] := by
  cases c with
  | upload env stream =>
    simp only [step]
    cases hc : (UploadFile s.db s.blobs env stream).committed with
    | false => rw [UploadFile_not_committed hc]; exact ⟨hinv, hids⟩
    | true =>
      obtain ⟨firstChunk, st, -, -, htx⟩ := UploadFile_committed hc
      obtain ⟨dbs, hsave, hcreate⟩ := uploadTransaction_steps htx
      exact save_create_consistent hinv hids huuid.2.1 rfl hsave hcreate
  | change env msg =>
    simp only [step]
    cases h : handleFileChange s.db env msg with
    | error e => exact ⟨hinv, hids⟩
    | ok db' =>
      obtain ⟨dbs, hsave, hcreate⟩ := handleFileChange_ok h
      exact save_create_consistent hinv hids huuid.1 rfl hsave hcreate
  | resolve env req =>
    simp only [step]
    rw [ResolveConflict_fails s.db env req]
    exact ⟨hinv, hids⟩

theorem foldl_step_consistent (calls : List Call) (s : System)
    (huuid : ∀ c ∈ calls, c.uuidsNonEmpty)
    (hinv : Consistent s.db) (hids : ∀ f ∈ s.db.files, f.ID ≠ []) :
    Consistent (calls.foldl step s).db := by
  induction calls generalizing s with
  | nil => exact hinv
  | cons c rest ih =>
    obtain ⟨h1, h2⟩ := step_consistent s c (huuid c (List.mem_cons_self _ _)) hinv hids
    exact ih (step s c) (fun x hx => huuid x (List.mem_cons_of_mem _ hx)) h1 h2

/-- C15: starting from the empty metadata store, after any finite sequence of
calls of `UploadFile`, `handleFileChange` and `ResolveConflict`, each of which
commits its transaction or leaves the store as it was, every file row has a
version row that refers to it and every version row refers to a file row.
(`huuid`: the strings that `uuid.New().String()` returns are not empty.) -/
theorem run_consistent (calls : List Call) (huuid : ∀ c ∈ calls, c.uuidsNonEmpty) :
    Consistent (run calls).db :=
  foldl_step_consistent calls ⟨⟨[], []⟩, []⟩ huuid
    (by unfold Consistent; simp) (fun f hf => by cases hf)

/-- C15 on the example sequence: an upload, a change message and two conflict
resolutions, which fail and leave the store as it was. -/
theorem run_consistent_witness :
    Consistent (run callsExample).db ∧
    (run callsExample).db.files.map (fun f => f.ID) = [str "f", str "f2"] ∧
    (run callsExample).db.versions.map (fun v => (v.ID, v.FileID)) =
      [(str "v1", str "f"), (str "w2", str "f2")] :=
  ⟨run_consistent callsExample (by decide), by decide, by decide⟩

/-! ## Properties of `ListFiles` -/

/-- C12: the folder path is used as a `LIKE` pattern, not as a prefix.  Of the
two files of user `u` only `f1` has a path that starts with `my_docs/`, but
`ListFiles` with that folder path also returns `f2`, whose path starts with
`myXdocs/`, and reports a total count of 2: the `_` of the folder path matches
any character. -/
theorem ListFiles_folder_is_pattern :
    (matchingFiles underscoreStore ⟨str "u", str "my_docs/", 1, 10⟩).map (fun f => f.ID) =
      [str "f1"] ∧
    ¬ (str "my_docs/" <+: str "myXdocs/b") ∧
    ListFiles underscoreStore ⟨none, none, true⟩ ⟨str "u", str "my_docs/", 1, 10⟩ =
      .ok { TotalCount := 2,
            Files :=
              [{ FileId := str "f1", FileName := str "a", Size := 1, ContentType := [],
                 VersionId := str "v1", OwnerId := str "u" },
               { FileId := str "f2", FileName := str "b", Size := 1, ContentType := [],
                 VersionId := str "v2", OwnerId := str "u" }] } := by
  refine ⟨by decide, by decide, by decide⟩

/-- The scenario of the spec: with 25 files of one owner, page 2 of size 10
holds the files 11 to 20 and the total count is 25. -/
theorem ListFiles_second_page_of_25 :
    listedIds (ListFiles twentyFiveFiles ⟨none, none, true⟩ ⟨str "u", str "docs/", 2, 10⟩) =
      some (25, (List.range 10).map (fun n => [Fin.ofNat (n + 11)])) := by
  decide

theorem int32_of_small (n : Int) (h0 : -(2 ^ 31) ≤ n) (h1 : n < 2 ^ 31) : int32 n = n := by
  unfold int32
  omega

/-- For a folder path without the characters `%`, `_` and backslash, the
pattern `FolderPath+"%"` selects the paths that start with the folder path. -/
theorem like_folder (folder value : GoString)
    (hmeta : ∀ b ∈ folder, b ≠ 37 ∧ b ≠ 95 ∧ b ≠ 92) :
    like value (folder ++ [37]) = decide (folder <+: value) := by
  unfold like
  induction folder generalizing value with
  | nil =>
    have hmem : ([] : List Byte) ∈ value.tails := by simp
    have hany : (value.tails.any fun t => !false && t.isEmpty) = true :=
      List.any_eq_true.mpr ⟨[], hmem, by simp⟩
    simp only [List.nil_append, likeAux]
    rw [if_neg (by decide), if_pos (by decide), hany]
    simp
  | cons c p ih =>
    obtain ⟨h37, h95, h92⟩ := hmeta c (List.mem_cons_self _ _)
    have hp : ∀ b ∈ p, b ≠ 37 ∧ b ≠ 95 ∧ b ≠ 92 :=
      fun b hb => hmeta b (List.mem_cons_of_mem _ hb)
    cases value with
    | nil => simp [likeAux, h37, h92]
    | cons x t =>
      simp only [List.cons_append, likeAux, h92, h37, if_false, h95, decide_False,
        Bool.false_or, List.append_eq]
      rw [ih t hp]
      by_cases hx : x = c
      · subst hx; simp [List.cons_prefix_cons]
      · have hx' : ¬ c = x := fun h => hx h.symm
        simp [List.cons_prefix_cons, hx, hx']

theorem listQuery_eq_matchingFiles (db : Store) (req : ListFilesRequest)
    (hmeta : ∀ b ∈ req.FolderPath, b ≠ 37 ∧ b ≠ 95 ∧ b ≠ 92) :
    listQuery db req = matchingFiles db req := by
  unfold listQuery matchingFiles
  congr 1
  funext f
  rw [like_folder _ _ hmeta]

theorem listEntries_of_versions (files : List File) (h : ∀ f ∈ files, f.Versions ≠ []) :
    ∃ entries, listEntries files = some entries ∧
      entries.map (fun e => e.FileId) = files.map (fun f => f.ID) := by
  induction files with
  | nil => exact ⟨[], rfl, rfl⟩
  | cons f rest ih =>
    obtain ⟨es, hes, hids⟩ := ih (fun g hg => h g (List.mem_cons_of_mem _ hg))
    have hne := h f (List.mem_cons_self _ _)
    have hlast : f.Versions.getLast? = some (f.Versions.getLast hne) :=
      List.getLast?_eq_getLast _ hne
    refine ⟨listEntry f (f.Versions.getLast hne) :: es, ?_, ?_⟩
    · simp only [listEntries, hlast, hes]
    · simp [listEntry, hids]

/-- Where the listing is as the spec describes it: for a folder path without
`LIKE` metacharacters, 32-bit values of `Page` and `PageSize` from 1 on, an
offset and a count that fit 32 bits and files that all have a version,
`ListFiles` returns the number of matching files and the files at the
positions `(Page-1)*PageSize+1` to `Page*PageSize` of the matching files in
store order. -/
theorem ListFiles_page (db : Store) (env : ListEnv) (req : ListFilesRequest)
    (hcount : env.countFault = none) (hfind : env.findFault = none)
    (hmeta : ∀ b ∈ req.FolderPath, b ≠ 37 ∧ b ≠ 95 ∧ b ≠ 92)
    (hpage : 1 ≤ req.Page) (hpage' : req.Page < 2 ^ 31)
    (hsize : 1 ≤ req.PageSize) (hsize' : req.PageSize < 2 ^ 31)
    (hoff : (req.Page - 1) * req.PageSize < 2 ^ 31)
    (hN : (matchingFiles db req).length < 2 ^ 31)
    (hver : ∀ f ∈ matchingFiles db req, ∃ v ∈ db.versions, v.FileID = f.ID) :
    ∃ entries,
      ListFiles db env req =
        .ok { TotalCount := (matchingFiles db req).length, Files := entries } ∧
      entries.map (fun e => e.FileId) =
        (((matchingFiles db req).drop ((req.Page - 1) * req.PageSize).toNat).take
          req.PageSize.toNat).map (fun f => f.ID) := by
  have hq := listQuery_eq_matchingFiles db req hmeta
  have hnonneg : 0 ≤ (req.Page - 1) * req.PageSize :=
    Int.mul_nonneg (by omega) (by omega)
  have hoffset : int32 (int32 (req.Page - 1) * req.PageSize) = (req.Page - 1) * req.PageSize := by
    rw [int32_of_small (req.Page - 1) (by omega) (by omega)]
    exact int32_of_small _ (by omega) hoff
  have hdrop : gormOffset ((req.Page - 1) * req.PageSize) (matchingFiles db req) =
      (matchingFiles db req).drop ((req.Page - 1) * req.PageSize).toNat := by
    unfold gormOffset
    split
    · rfl
    · have hz : (req.Page - 1) * req.PageSize = 0 := by omega
      rw [hz]; rfl
  have htake : ∀ rows, gormLimit env.limitZeroIsEmpty req.PageSize rows =
      rows.take req.PageSize.toNat := by
    intro rows
    unfold gormLimit
    rw [if_pos (by omega)]
  have htotal : int32 ((matchingFiles db req).length : Int) = (matchingFiles db req).length :=
    int32_of_small _ (by omega) (by exact_mod_cast hN)
  have hvers : ∀ f ∈ (((matchingFiles db req).drop ((req.Page - 1) * req.PageSize).toNat).take
      req.PageSize.toNat).map
        (fun f => { f with Versions := db.versions.filter (fun v => v.FileID = f.ID) }),
      f.Versions ≠ [] := by
    intro f hf
    obtain ⟨g, hg, rfl⟩ := List.mem_map.mp hf
    have hgm : g ∈ matchingFiles db req := List.mem_of_mem_drop (List.mem_of_mem_take hg)
    obtain ⟨v, hv, hvid⟩ := hver g hgm
    intro hnil
    have : v ∈ db.versions.filter (fun v => v.FileID = g.ID) :=
      List.mem_filter.mpr ⟨hv, by simpa using hvid⟩
    simp only at hnil
    rw [hnil] at this
    cases this
  obtain ⟨entries, hentries, hids⟩ := listEntries_of_versions _ hvers
  refine ⟨entries, ?_, ?_⟩
  · unfold ListFiles
    rw [hcount, hfind]
    simp only [hq, hoffset, hdrop, htake, hentries, htotal]
  · rw [hids, List.map_map]
    rfl

end FileSync
